import Mathlib

/-!
# Verification of the Angular Ivy compile-service caching pipeline

Shallow embedding of the repository's compilation pipeline and its
multi-layer cache system:

* `src/functions/src/angular-compiler.ts` — the HTTP handler
  `compileAngular` (request validation, content hashing, result-cache
  short-circuit, analysis/emission/formatting phases, diagnostic
  formatting) and its TTL-aware `resolveModuleNames` batch resolver.
* `src/unnamed/part_001` — the cache-manager variant with a 24h module
  TTL (`isCacheValid`), simple one-entry eviction in `cacheCompilation`,
  and plain `cacheResolvedModule` (namespace `CM1` below).
* `src/unnamed/part_002` — the cache-manager variant with permanent
  module caching, the `resolvingModules` in-flight set, `try/finally`
  in `cacheResolvedModule`, and 10%-batch cleanup guarded by
  `isCleaningCompilationCache` in `cacheCompilation` (namespace `CM2`).

External collaborators (the `@angular/compiler-cli` compiler,
`ts.resolveModuleName`, the filesystem heuristics of
`fallbackResolveModule`, `prettier.format`, the md5 digest) are modelled
as oracle parameters; repository logic is translated directly.

JavaScript `Map` objects preserve insertion order; they are modelled as
insertion-ordered association lists (`AList`).  JavaScript truthiness of
strings (`if (nextKey)`, `d.file?.fileName || 'main.ts'`) is modelled by
comparison against the empty string.
-/

namespace IvyCompiler

/-! ## Insertion-ordered string-keyed map (JavaScript `Map`) -/

/-- A JavaScript `Map<string, α>`: entries in insertion order;
`set` on an existing key updates the value in place, otherwise appends;
`delete` removes the entry; `keys().next()` yields the first key. -/
abbrev AList (α : Type) := List (String × α)

namespace AList

variable {α : Type}

/-- `Map.prototype.get`. -/
def get? (k : String) : AList α → Option α
  | [] => none
  | (k₀, v₀) :: t => if k₀ = k then some v₀ else get? k t

/-- `Map.prototype.set`: update in place if present, else append. -/
def set (k : String) (v : α) : AList α → AList α
  | [] => [(k, v)]
  | (k₀, v₀) :: t => if k₀ = k then (k, v) :: t else (k₀, v₀) :: set k v t

/-- `Map.prototype.delete` (keys are unique in a `Map`, so removing the
first occurrence is exact). -/
def delete (k : String) : AList α → AList α
  | [] => []
  | (k₀, v₀) :: t => if k₀ = k then t else (k₀, v₀) :: delete k t

/-- `Map.prototype.size`. -/
def size (m : AList α) : Nat := m.length

/-- `map.keys().next().value`: the first (oldest) key, if any. -/
def firstKey? : AList α → Option String
  | [] => none
  | (k₀, _) :: _ => some k₀

/-- The keys in insertion order. -/
def keys (m : AList α) : List String := m.map Prod.fst

@[simp] theorem get?_set_self (k : String) (v : α) (m : AList α) :
    get? k (set k v m) = some v := by
  induction m with
  | nil => simp [get?, set]
  | cons p t ih =>
    obtain ⟨k₀, v₀⟩ := p
    by_cases h : k₀ = k <;> simp [get?, set, h, ih]

theorem get?_set_ne (k j : String) (v : α) (m : AList α) (hne : k ≠ j) :
    get? j (set k v m) = get? j m := by
  induction m with
  | nil => simp [get?, set, hne]
  | cons p t ih =>
    obtain ⟨k₀, v₀⟩ := p
    by_cases h : k₀ = k
    · subst h; simp [get?, set, hne]
    · simp only [set, if_neg h, get?]
      by_cases h2 : k₀ = j <;> simp [h2, ih]

theorem set_fresh (k : String) (v : α) (m : AList α) (h : k ∉ keys m) :
    set k v m = m ++ [(k, v)] := by
  induction m with
  | nil => simp [set]
  | cons p t ih =>
    obtain ⟨k₀, v₀⟩ := p
    simp only [keys, List.map_cons, List.mem_cons] at h
    push_neg at h
    simp [set, Ne.symm h.1, ih (by simpa [keys] using h.2)]

theorem length_set_le (k : String) (v : α) (m : AList α) :
    (set k v m).length ≤ m.length + 1 := by
  induction m with
  | nil => simp [set]
  | cons p t ih =>
    obtain ⟨k₀, v₀⟩ := p
    by_cases h : k₀ = k
    · simp [set, h]
    · simp only [set, if_neg h, List.length_cons]
      omega

@[simp] theorem keys_cons (k₀ : String) (v₀ : α) (t : AList α) :
    keys ((k₀, v₀) :: t) = k₀ :: keys t := rfl

theorem keys_set_subset (k j : String) (v : α) (m : AList α)
    (h : j ∈ keys (set k v m)) : j = k ∨ j ∈ keys m := by
  induction m with
  | nil => simpa [set, keys] using h
  | cons p t ih =>
    obtain ⟨k₀, v₀⟩ := p
    by_cases hk : k₀ = k
    · subst hk
      rw [set, if_pos rfl] at h
      rcases (by simpa using h : j = k₀ ∨ j ∈ keys t) with h1 | h1
      · exact Or.inl h1
      · exact Or.inr (by simp [h1])
    · rw [set, if_neg hk] at h
      rcases (by simpa using h : j = k₀ ∨ j ∈ keys (set k v t)) with h1 | h1
      · exact Or.inr (by simp [h1])
      · rcases ih h1 with h2 | h2
        · exact Or.inl h2
        · exact Or.inr (by simp [h2])

/-- Deleting the key at the head removes exactly the head entry. -/
theorem delete_firstKey (k : String) (v : α) (t : AList α) :
    delete k ((k, v) :: t) = t := by
  simp [delete]

end AList

/-! ## Shared data model (`cache-manager` interfaces) -/

/-- `EnhancedModuleCache` (part_001/part_002 lines 5-9). -/
structure EnhancedModuleCache where
  resolvedFileName : String
  isExternalLibraryImport : Bool
  timestamp : Nat
  deriving Repr, DecidableEq

/-- A `ts.ResolvedModule`: `isExternalLibraryImport` is optional in
TypeScript, hence `Option Bool`. -/
structure ResolvedModule where
  resolvedFileName : String
  isExternalLibraryImport : Option Bool
  deriving Repr, DecidableEq

/-- The object literal `{ compiledOutput, hasDiagnostics }` stored in the
compilation cache (`cacheCompilation` call sites, angular-compiler.ts
lines 331-334, 369-372, 410-413). -/
structure CachedCompilation where
  compiledOutput : String
  hasDiagnostics : Bool
  deriving Repr, DecidableEq

/-- The whole process-wide mutable cache state: the four `Map`s, the
`resolvingModules` set and the `isCleaningCompilationCache` flag
(`resolving` and `isCleaning` exist only in the part_002 variant and are
ignored by the `CM1` operations). -/
structure CacheState where
  enhanced : AList EnhancedModuleCache
  legacy : AList String
  fileContent : AList String
  compilation : AList CachedCompilation
  resolving : List String
  isCleaning : Bool
  deriving Repr, DecidableEq

/-- The empty state at process start. -/
def CacheState.initial : CacheState :=
  { enhanced := [], legacy := [], fileContent := [], compilation := [],
    resolving := [], isCleaning := false }

/-- `MODULE_RESOLUTION_TTL = 24 * 60 * 60 * 1000` (part_001 line 20). -/
def MODULE_RESOLUTION_TTL : Nat := 24 * 60 * 60 * 1000

/-- `MAX_CACHE_SIZE = 1000` (part_001/part_002 line 21). -/
def MAX_CACHE_SIZE : Nat := 1000

/-- JavaScript `String.prototype.includes`: substring containment. -/
def jsIncludes (s sub : String) : Bool :=
  decide (List.IsInfix sub.data s.data)

/-- `createCacheKey` (part_001 lines 44-49 = part_002 lines 53-58):
`moduleName#fileType` where the containing file is classified into
`main` / `npm` / `local`. -/
def createCacheKey (moduleName containingFile : String) : String :=
  let fileType :=
    if containingFile = "/main.ts" then "main"
    else if jsIncludes containingFile "node_modules" then "npm"
    else "local"
  moduleName ++ "#" ++ fileType

/-! ## Cache manager, part_001 variant (TTL-based, used by
`angular-compiler.ts`, whose import of `isCacheValid` matches this
file) -/

namespace CM1

/-- `isCacheValid` (part_001 lines 54-56):
`Date.now() - cachedModule.timestamp < MODULE_RESOLUTION_TTL`.
`now` stands for `Date.now()`; truncated `Nat` subtraction agrees with
JavaScript here since a negative difference is also `< TTL`. -/
def isCacheValid (now : Nat) (cachedModule : EnhancedModuleCache) : Bool :=
  now - cachedModule.timestamp < MODULE_RESOLUTION_TTL

/-- `getEnhancedCachedModule` (part_001 lines 61-63). -/
def getEnhancedCachedModule (cacheKey : String) (s : CacheState) :
    Option EnhancedModuleCache :=
  s.enhanced.get? cacheKey

/-- `getLegacyCachedModule` (part_001 lines 68-70). -/
def getLegacyCachedModule (cacheKey : String) (s : CacheState) : Option String :=
  s.legacy.get? cacheKey

/-- `cacheResolvedModule` (part_001 lines 75-88): writes the enhanced
entry (`isExternalLibraryImport ?? true`, fresh timestamp) and the
legacy path entry. -/
def cacheResolvedModule (cacheKey : String) (resolvedModule : ResolvedModule)
    (now : Nat) (s : CacheState) : CacheState :=
  { s with
    enhanced := s.enhanced.set cacheKey
      { resolvedFileName := resolvedModule.resolvedFileName
        isExternalLibraryImport := resolvedModule.isExternalLibraryImport.getD true
        timestamp := now }
    legacy := s.legacy.set cacheKey resolvedModule.resolvedFileName }

/-- `migrateLegacyToEnhanced` (part_001 lines 93-100): rebuilds an
enhanced entry from a legacy path with `isExternalLibraryImport: true`
and a fresh timestamp. -/
def migrateLegacyToEnhanced (cacheKey legacyPath : String) (now : Nat)
    (s : CacheState) : CacheState :=
  { s with
    enhanced := s.enhanced.set cacheKey
      { resolvedFileName := legacyPath
        isExternalLibraryImport := true
        timestamp := now } }

/-- `getCachedCompilation` (part_001 lines 122-124). -/
def getCachedCompilation (codeHash : String) (s : CacheState) :
    Option CachedCompilation :=
  s.compilation.get? codeHash

/-- `cacheCompilation` (part_001 lines 129-139): if the map is at
capacity, delete the first key — `if (firstKey)` skips the delete when
the first key is the empty string (falsy) — then insert. -/
def cacheCompilation (codeHash : String) (result : CachedCompilation)
    (s : CacheState) : CacheState :=
  let cleaned :=
    if s.compilation.size ≥ MAX_CACHE_SIZE then
      match s.compilation.firstKey? with
      | some firstKey =>
          if firstKey = "" then s.compilation
          else s.compilation.delete firstKey
      | none => s.compilation
    else s.compilation
  { s with compilation := cleaned.set codeHash result }

end CM1

/-! ## Cache manager, part_002 variant (permanent caching, in-flight
de-duplication set, guarded batch cleanup) -/

namespace CM2

/-- `getEnhancedCachedModule` (part_002 lines 63-70); the `try/catch`
returning `undefined` on failure has no failing path in the model. -/
def getEnhancedCachedModule (cacheKey : String) (s : CacheState) :
    Option EnhancedModuleCache :=
  s.enhanced.get? cacheKey

/-- `getLegacyCachedModule` (part_002 lines 75-77). -/
def getLegacyCachedModule (cacheKey : String) (s : CacheState) : Option String :=
  s.legacy.get? cacheKey

/-- `cacheResolvedModule` (part_002 lines 85-106): a `try` block writes
the enhanced then the legacy entry; the `finally` block always removes
`cacheKey` from `resolvingModules`.  The flags `crashEnhanced` /
`crashLegacy` model a hypothetical exception thrown by the respective
`Map.set`; the `finally` cleanup runs in every case and the exception is
re-raised (`Except.error`). -/
def cacheResolvedModule (crashEnhanced crashLegacy : Bool)
    (cacheKey : String) (resolvedModule : ResolvedModule) (now : Nat)
    (s : CacheState) : Except Unit Unit × CacheState :=
  if crashEnhanced then
    (.error (), { s with resolving := s.resolving.filter (· ≠ cacheKey) })
  else
    let s₁ := { s with
      enhanced := s.enhanced.set cacheKey
        { resolvedFileName := resolvedModule.resolvedFileName
          isExternalLibraryImport := resolvedModule.isExternalLibraryImport.getD true
          timestamp := now } }
    if crashLegacy then
      (.error (), { s₁ with resolving := s₁.resolving.filter (· ≠ cacheKey) })
    else
      (.ok (), { s₁ with
        legacy := s₁.legacy.set cacheKey resolvedModule.resolvedFileName
        resolving := s₁.resolving.filter (· ≠ cacheKey) })

/-- `markModuleAsResolving` (part_002 lines 118-124): returns `false`
without touching the set when the key is already in flight, else adds it
and returns `true`. -/
def markModuleAsResolving (cacheKey : String) (s : CacheState) :
    Bool × CacheState :=
  if s.resolving.contains cacheKey then (false, s)
  else (true, { s with resolving := cacheKey :: s.resolving })

/-- `migrateLegacyToEnhanced` (part_002 lines 129-136). -/
def migrateLegacyToEnhanced (cacheKey legacyPath : String) (now : Nat)
    (s : CacheState) : CacheState :=
  { s with
    enhanced := s.enhanced.set cacheKey
      { resolvedFileName := legacyPath
        isExternalLibraryImport := true
        timestamp := now } }

/-- `getCachedCompilation` (part_002 lines 163-170). -/
def getCachedCompilation (codeHash : String) (s : CacheState) :
    Option CachedCompilation :=
  s.compilation.get? codeHash

/-- The cleanup loop body of `cacheCompilation` (part_002 lines 184-193):
`entriesToRemove` iterations; each takes `iterator.next().value` — the
first not-yet-deleted key — and deletes it, but `if (nextKey)` breaks
out when the key is falsy (iterator exhausted, or the key is the empty
string). -/
def cleanupLoop : Nat → AList CachedCompilation → AList CachedCompilation
  | 0, m => m
  | n + 1, m =>
    match m.firstKey? with
    | none => m
    | some nextKey =>
        if nextKey = "" then m
        else cleanupLoop n (m.delete nextKey)

/-- `cacheCompilation` (part_002 lines 178-200): when at capacity and no
cleanup is in progress, set the `isCleaningCompilationCache` flag,
remove up to `Math.floor(MAX_CACHE_SIZE * 0.1) = 100` oldest entries,
reset the flag (`finally`), then insert. -/
def cacheCompilation (codeHash : String) (result : CachedCompilation)
    (s : CacheState) : CacheState :=
  if s.compilation.size ≥ MAX_CACHE_SIZE ∧ s.isCleaning = false then
    -- `entriesToRemove = Math.floor(MAX_CACHE_SIZE * 0.1)`; the flag is
    -- `true` during the loop and reset by `finally`
    { s with
      compilation :=
        AList.set codeHash result (cleanupLoop (MAX_CACHE_SIZE / 10) s.compilation)
      isCleaning := false }
  else
    { s with compilation := AList.set codeHash result s.compilation }

end CM2

/-! ## JavaScript `String.prototype.trim` and the content key -/

/-- The ECMAScript WhiteSpace / LineTerminator set removed by
`String.prototype.trim`. -/
def isJsWhitespace (c : Char) : Bool :=
  c = '\t' ∨ c = '\n' ∨ c.toNat = 0xB ∨ c.toNat = 0xC ∨ c = '\r' ∨
  c = ' ' ∨ c.toNat = 0xA0 ∨ c.toNat = 0x1680 ∨
  (0x2000 ≤ c.toNat ∧ c.toNat ≤ 0x200A) ∨
  c.toNat = 0x2028 ∨ c.toNat = 0x2029 ∨ c.toNat = 0x202F ∨
  c.toNat = 0x205F ∨ c.toNat = 0x3000 ∨ c.toNat = 0xFEFF

/-- `String.prototype.trim` on the character list: drop leading and
trailing JavaScript whitespace. -/
def jsTrimList (l : List Char) : List Char :=
  ((l.dropWhile isJsWhitespace).reverse.dropWhile isJsWhitespace).reverse

/-- `inputCode.trim()`. -/
def jsTrim (s : String) : String :=
  String.mk (jsTrimList s.data)

/-- The compilation cache key (angular-compiler.ts line 81):
`crypto.createHash('md5').update(inputCode.trim()).digest('hex')` —
the md5 digest is the abstract `hash` parameter applied to the trimmed
source text. -/
def contentKey (hash : String → String) (inputCode : String) : String :=
  hash (jsTrim inputCode)

/-! ## Diagnostics and their formatting -/

/-- The part of a `ts.SourceFile` the formatter uses: its name and
`getLineAndCharacterOfPosition` (0-based line/character). -/
structure DiagFile where
  fileName : String
  getLineAndCharacterOfPosition : Nat → Nat × Nat

/-- A `ts.Diagnostic`; `messageFlattened` stands for
`ts.flattenDiagnosticMessageText(d.messageText, '\n')`. -/
structure Diagnostic where
  file : Option DiagFile
  start : Option Nat
  category : Nat
  code : Nat
  messageFlattened : String

/-- The reverse mapping `ts.DiagnosticCategory[n]` of TypeScript's
numeric enum: 0 `Warning`, 1 `Error`, 2 `Suggestion`, 3 `Message`,
otherwise `undefined`. -/
def categoryName : Nat → Option String
  | 0 => some "Warning"
  | 1 => some "Error"
  | 2 => some "Suggestion"
  | 3 => some "Message"
  | _ => none

/-- Diagnostic formatting for the analysis path (angular-compiler.ts
lines 308-319): `fileName = d.file?.fileName || 'main.ts'` (an empty
file name is falsy), position from `getLineAndCharacterOfPosition` when
both the file and `start` exist, else `(0,0)`; category via
`ts.DiagnosticCategory[d.category] || 'Error'`; rendered 1-based as
`<file>(<line>,<col>): <Category> TS<code>: <message>`. -/
def formatDiagnostic (d : Diagnostic) : String :=
  let fileName :=
    match d.file with
    | some f => if f.fileName = "" then "main.ts" else f.fileName
    | none => "main.ts"
  let lc :=
    match d.file, d.start with
    | some f, some st => f.getLineAndCharacterOfPosition st
    | _, _ => (0, 0)
  let category := (categoryName d.category).getD "Error"
  fileName ++ "(" ++ toString (lc.1 + 1) ++ "," ++ toString (lc.2 + 1) ++
    "): " ++ category ++ " TS" ++ toString d.code ++ ": " ++ d.messageFlattened

/-- Diagnostic formatting for the emission path (angular-compiler.ts
lines 345-357): identical except the category interpolation
`${ts.DiagnosticCategory[d.category]}` has no `|| 'Error'` fallback, so
an unknown category renders as the string `undefined`. -/
def formatEmitDiagnostic (d : Diagnostic) : String :=
  let fileName :=
    match d.file with
    | some f => if f.fileName = "" then "main.ts" else f.fileName
    | none => "main.ts"
  let lc :=
    match d.file, d.start with
    | some f, some st => f.getLineAndCharacterOfPosition st
    | _, _ => (0, 0)
  let category := (categoryName d.category).getD "undefined"
  fileName ++ "(" ++ toString (lc.1 + 1) ++ "," ++ toString (lc.2 + 1) ++
    "): " ++ category ++ " TS" ++ toString d.code ++ ": " ++ d.messageFlattened

/-! ## The HTTP compile pipeline (`compileAngular`) -/

/-- The response sent for a completed compile attempt; the wall-clock
fields `compilationTime` and `timings` are not modelled. -/
structure CompileResponse where
  compiledOutput : String
  hasDiagnostics : Bool
  fromCache : Bool
  deriving Repr, DecidableEq

/-- The handler's possible HTTP responses. -/
inductive HttpResponse where
  | noContent                                -- 204 (OPTIONS preflight)
  | methodNotAllowed                         -- 405
  | badRequest (error : String)              -- 400 { error }
  | ok (response : CompileResponse)          -- 200
  | serverError (message : String)           -- 500 { error, message }
  deriving Repr, DecidableEq

/-- An incoming request: the method and the `code` field of the JSON
body (`none` when the field is missing). -/
structure Req where
  method : String
  code : Option String
  deriving Repr, DecidableEq

/-- The cache state visible to the black-box compiler through the
`ts.CompilerHost` (its `readFile` populates the file-content cache, its
`resolveModuleNames` reads and writes the module caches); the
compilation-result map and the cleanup flag are not reachable from the
host. -/
structure HostView where
  enhanced : AList EnhancedModuleCache
  legacy : AList String
  fileContent : AList String
  resolving : List String
  deriving Repr, DecidableEq

/-- Project the host-visible part of the cache state. -/
def CacheState.host (s : CacheState) : HostView :=
  { enhanced := s.enhanced, legacy := s.legacy,
    fileContent := s.fileContent, resolving := s.resolving }

/-- Reassemble the cache state after the compiler mutated the
host-visible part. -/
def CacheState.withHost (s : CacheState) (h : HostView) : CacheState :=
  { s with enhanced := h.enhanced, legacy := h.legacy,
           fileContent := h.fileContent, resolving := h.resolving }

/-- The external calls the pipeline can make, for stating that a phase
did or did not run. -/
inductive ExtCall where
  | analyze    -- NgtscProgram creation + compiler.analyzeAsync + diagnostics
  | emit       -- ngProgram.emit()
  | format     -- prettier.format
  deriving Repr, DecidableEq

/-- The black-box collaborators of the pipeline.  `analyze` stands for
`new NgtscProgram(...)`, `analyzeAsync` and the diagnostics collection of
lines 298-304 (returning the concatenated list); `emit` returns the emit
diagnostics and the text captured by the `writeFile` override; both may
mutate the host-visible caches and may throw (`Except.error`, caught by
the outer handler as a 500).  `cleanup` stands for the regex-based
`removeNgDevModeBlocks` (lines 425-431); `format` for `prettier.format`
with the fixed options; `hash` for the md5 hex digest. -/
structure CompilerOracle where
  analyze : String → HostView → Except String (List Diagnostic) × HostView
  emit : String → HostView → Except String (List Diagnostic × String) × HostView
  cleanup : String → String
  format : String → Except String String
  hash : String → String

/-- The body of the handler's `try` block after input validation
(angular-compiler.ts lines 80-415): content hashing, result-cache
short-circuit, analysis, diagnostics-before-emission, emission,
post-processing, result caching.  Returns the response, the final cache
state, and the list of external phases invoked. -/
def compilePipeline (O : CompilerOracle) (s : CacheState) (inputCode : String) :
    HttpResponse × CacheState × List ExtCall :=
  let codeHash := contentKey O.hash inputCode
  match CM1.getCachedCompilation codeHash s with
        | some cachedResult =>
            -- { ...cachedResult, fromCache: true }
            (.ok { compiledOutput := cachedResult.compiledOutput
                   hasDiagnostics := cachedResult.hasDiagnostics
                   fromCache := true }, s, [])
        | none =>
          match O.analyze inputCode s.host with
          | (.error msg, h₁) => (.serverError msg, s.withHost h₁, [.analyze])
          | (.ok allDiagnostics, h₁) =>
            let s₁ := s.withHost h₁
            if allDiagnostics.length > 0 then
              let diagnosticText :=
                String.intercalate "\n" (allDiagnostics.map formatDiagnostic)
              let s₂ := CM1.cacheCompilation codeHash
                { compiledOutput := diagnosticText, hasDiagnostics := true } s₁
              (.ok { compiledOutput := diagnosticText, hasDiagnostics := true
                     fromCache := false }, s₂, [.analyze])
            else
              match O.emit inputCode h₁ with
              | (.error msg, h₂) =>
                  (.serverError msg, s₁.withHost h₂, [.analyze, .emit])
              | (.ok (emitDiagnostics, compiledCode), h₂) =>
                let s₂ := s₁.withHost h₂
                if emitDiagnostics.length > 0 then
                  let diagnosticText :=
                    String.intercalate "\n" (emitDiagnostics.map formatEmitDiagnostic)
                  let s₃ := CM1.cacheCompilation codeHash
                    { compiledOutput := diagnosticText, hasDiagnostics := true } s₂
                  (.ok { compiledOutput := diagnosticText, hasDiagnostics := true
                         fromCache := false }, s₃, [.analyze, .emit])
                else
                  let cleanedCode := O.cleanup compiledCode
                  match O.format cleanedCode with
                  | .error msg =>
                      (.serverError msg, s₂, [.analyze, .emit, .format])
                  | .ok formattedCode =>
                    let s₃ := CM1.cacheCompilation codeHash
                      { compiledOutput := formattedCode, hasDiagnostics := false } s₂
                    (.ok { compiledOutput := formattedCode, hasDiagnostics := false
                           fromCache := false }, s₃, [.analyze, .emit, .format])

/-- `compileAngular` (angular-compiler.ts lines 50-423): CORS preflight,
method dispatch and `code` validation (`if (!inputCode)` is falsy for a
missing field and for the empty string), then the pipeline body. -/
def compileAngular (O : CompilerOracle) (s : CacheState) (req : Req) :
    HttpResponse × CacheState × List ExtCall :=
  if req.method = "OPTIONS" then (.noContent, s, [])
  else if req.method ≠ "POST" then (.methodNotAllowed, s, [])
  else
    match req.code with
    | none => (.badRequest "Code is required", s, [])
    | some inputCode =>
      if inputCode = "" then (.badRequest "Code is required", s, [])
      else compilePipeline O s inputCode

/-! ## Batch module resolution -/

/-- Outcome of `ts.resolveModuleName(moduleName, containingFile, …)`:
either a result whose `resolvedModule` may be `undefined`, or a thrown
exception. -/
inductive PrimaryResolution where
  | ok (resolvedModule : Option ResolvedModule)
  | throws
  deriving Repr, DecidableEq

/-- The external resolution capabilities: `primary` is
`ts.resolveModuleName` (given module name and containing file);
`fallback` is `fallbackResolveModule` (angular-compiler.ts lines
231-288 = part_002 lines 299-359), a pure filesystem heuristic depending
only on the module name. -/
structure ResolveEnv where
  primary : String → String → PrimaryResolution
  fallback : String → Option ResolvedModule

/-- Phase-2 resolution of one module (angular-compiler.ts lines
202-215): try the primary resolver, fall back on a thrown exception,
and try the fallback again if the result is still `undefined`.  Reads no
cache state. -/
def freshResolve (env : ResolveEnv) (containingFile moduleName : String) :
    Option ResolvedModule :=
  let resolvedModule :=
    match env.primary moduleName containingFile with
    | .ok rm => rm
    | .throws => env.fallback moduleName
  match resolvedModule with
  | none => env.fallback moduleName
  | some rm => some rm

/-- Outcome of the phase-1 cache lookup for one module: a cache hit with
the descriptor assigned to `resolvedModules[i]`, or a miss pushed onto
`toResolve` as `{ index, moduleName, cacheKey }`. -/
inductive P1 where
  | hit (rm : ResolvedModule)
  | miss (moduleName cacheKey : String)
  deriving Repr, DecidableEq

/-- The legacy-cache arm of the phase-1 loop (angular-compiler.ts lines
170-184): serve a legacy hit (migrating it into the enhanced cache,
`isExternalLibraryImport: true`), else mark the specifier for
resolution. -/
def lookupLegacyStep (now : Nat) (containingFile : String) (s : CacheState)
    (moduleName : String) : P1 × CacheState :=
  match CM1.getLegacyCachedModule (createCacheKey moduleName containingFile) s with
  | some legacyCachedPath =>
      (.hit { resolvedFileName := legacyCachedPath
              isExternalLibraryImport := some true },
       CM1.migrateLegacyToEnhanced (createCacheKey moduleName containingFile)
         legacyCachedPath now s)
  | none => (.miss moduleName (createCacheKey moduleName containingFile), s)

/-- One iteration of the phase-1 loop of the TTL-aware resolver
(angular-compiler.ts lines 156-185): enhanced cache (validity-checked),
then the legacy arm. -/
def lookupStep (now : Nat) (containingFile : String) (s : CacheState)
    (moduleName : String) : P1 × CacheState :=
  match CM1.getEnhancedCachedModule (createCacheKey moduleName containingFile) s with
  | some cachedModule =>
      if CM1.isCacheValid now cachedModule then
        (.hit { resolvedFileName := cachedModule.resolvedFileName
                isExternalLibraryImport := some cachedModule.isExternalLibraryImport },
         s)
      else lookupLegacyStep now containingFile s moduleName
  | none => lookupLegacyStep now containingFile s moduleName

/-- The phase-1 loop (angular-compiler.ts lines 152-185), carrying the
running index: returns `resolvedModules` after phase 1 (hits in place,
`undefined` elsewhere), the `toResolve` work list (in increasing index
order) and the evolved state. -/
def phase1 (now : Nat) (containingFile : String) :
    List String → Nat → CacheState →
    List (Option ResolvedModule) × List (Nat × String × String) × CacheState
  | [], _, s => ([], [], s)
  | moduleName :: rest, i, s =>
    let (o, s₁) := lookupStep now containingFile s moduleName
    let (vals, toResolve, s₂) := phase1 now containingFile rest (i + 1) s₁
    match o with
    | .hit rm => (some rm :: vals, toResolve, s₂)
    | .miss mn cacheKey => (none :: vals, (i, mn, cacheKey) :: toResolve, s₂)

/-- The phase-2 loop (angular-compiler.ts lines 201-223): resolve each
work-list entry, cache a successful resolution, and record the
assignment `resolvedModules[index] = resolvedModule`.  Also returns the
names that went through fresh resolution. -/
def phase2 (env : ResolveEnv) (now : Nat) (containingFile : String) :
    List (Nat × String × String) → CacheState →
    List (Nat × Option ResolvedModule) × CacheState × List String
  | [], s => ([], s, [])
  | (index, moduleName, cacheKey) :: rest, s =>
    let resolvedModule := freshResolve env containingFile moduleName
    let s₁ :=
      match resolvedModule with
      | some rm => CM1.cacheResolvedModule cacheKey rm now s
      | none => s
    let (asg, s₂, fresh) := phase2 env now containingFile rest s₁
    ((index, resolvedModule) :: asg, s₂, moduleName :: fresh)

/-- Write the phase-2 assignments into the result list
(`resolvedModules[index] = resolvedModule`). -/
def applyAssignments (vals : List (Option ResolvedModule))
    (asg : List (Nat × Option ResolvedModule)) : List (Option ResolvedModule) :=
  asg.foldl (fun v a => v.set a.1 a.2) vals

/-- `resolveModuleNames` of the per-request host (angular-compiler.ts
lines 147-227): phase-1 batch cache lookup, then phase-2 batch
resolution of the misses.  Returns the resolution list (one slot per
input specifier), the final cache state, and the module names that were
freshly resolved. -/
def resolveModuleNames (env : ResolveEnv) (now : Nat) (s : CacheState)
    (moduleNames : List String) (containingFile : String) :
    List (Option ResolvedModule) × CacheState × List String :=
  let (vals, toResolve, s₁) := phase1 now containingFile moduleNames 0 s
  let (asg, s₂, fresh) := phase2 env now containingFile toResolve s₁
  (applyAssignments vals asg, s₂, fresh)

/-! ## The part_002 resolver (`createCachedModuleResolver`) -/

namespace CM2

/-- One iteration of the phase-1 loop of the part_002 resolver (lines
371-400): like the TTL-aware one but an enhanced entry is used
unconditionally (`MODULE_RESOLUTION_TTL = Infinity`). -/
def lookupStep (now : Nat) (containingFile : String) (s : CacheState)
    (moduleName : String) : P1 × CacheState :=
  let cacheKey := createCacheKey moduleName containingFile
  match CM2.getEnhancedCachedModule cacheKey s with
  | some cachedModule =>
      (.hit { resolvedFileName := cachedModule.resolvedFileName
              isExternalLibraryImport := some cachedModule.isExternalLibraryImport },
       s)
  | none =>
    match CM2.getLegacyCachedModule cacheKey s with
    | some legacyCachedPath =>
        (.hit { resolvedFileName := legacyCachedPath
                isExternalLibraryImport := some true },
         CM2.migrateLegacyToEnhanced cacheKey legacyCachedPath now s)
    | none => (.miss moduleName cacheKey, s)

/-- The phase-1 loop of the part_002 resolver (lines 367-400). -/
def phase1 (now : Nat) (containingFile : String) :
    List String → Nat → CacheState →
    List (Option ResolvedModule) × List (Nat × String × String) × CacheState
  | [], _, s => ([], [], s)
  | moduleName :: rest, i, s =>
    let (o, s₁) := CM2.lookupStep now containingFile s moduleName
    let (vals, toResolve, s₂) := CM2.phase1 now containingFile rest (i + 1) s₁
    match o with
    | .hit rm => (some rm :: vals, toResolve, s₂)
    | .miss mn cacheKey => (none :: vals, (i, mn, cacheKey) :: toResolve, s₂)

/-- Fresh resolution and caching of one work-list entry in the part_002
resolver (lines 435-456): resolve (primary, catch, fallback), then
either cache the success — which also clears the in-flight marker — or
explicitly clear the marker on failure. -/
def resolveAndCache (env : ResolveEnv) (now : Nat)
    (containingFile moduleName cacheKey : String) (s : CacheState) :
    Option ResolvedModule × CacheState :=
  let resolvedModule := freshResolve env containingFile moduleName
  match resolvedModule with
  | some rm =>
      (some rm, (CM2.cacheResolvedModule false false cacheKey rm now s).2)
  | none =>
      (none, { s with resolving := s.resolving.filter (· ≠ cacheKey) })

/-- One iteration of the phase-2 loop of the part_002 resolver (lines
416-457): try to mark the key in flight; if it already is, recheck the
enhanced cache once and use a hit, otherwise proceed with resolution
anyway. -/
def resolveStep (env : ResolveEnv) (now : Nat) (containingFile : String)
    (entry : Nat × String × String) (s : CacheState) :
    (Nat × Option ResolvedModule) × CacheState :=
  let (index, moduleName, cacheKey) := entry
  let (marked, s₁) := CM2.markModuleAsResolving cacheKey s
  if marked then
    let (rm, s₂) := resolveAndCache env now containingFile moduleName cacheKey s₁
    ((index, rm), s₂)
  else
    match CM2.getEnhancedCachedModule cacheKey s₁ with
    | some recheckCached =>
        ((index,
          some { resolvedFileName := recheckCached.resolvedFileName
                 isExternalLibraryImport := some recheckCached.isExternalLibraryImport }),
         s₁)
    | none =>
        let (rm, s₂) := resolveAndCache env now containingFile moduleName cacheKey s₁
        ((index, rm), s₂)

/-- The phase-2 loop of the part_002 resolver (lines 403-458). -/
def phase2 (env : ResolveEnv) (now : Nat) (containingFile : String) :
    List (Nat × String × String) → CacheState →
    List (Nat × Option ResolvedModule) × CacheState
  | [], s => ([], s)
  | entry :: rest, s =>
    let (a, s₁) := resolveStep env now containingFile entry s
    let (asg, s₂) := CM2.phase2 env now containingFile rest s₁
    (a :: asg, s₂)

/-- The resolver returned by `createCachedModuleResolver(options)`
(part_002 lines 364-462). -/
def resolveModuleNames (env : ResolveEnv) (now : Nat) (s : CacheState)
    (moduleNames : List String) (containingFile : String) :
    List (Option ResolvedModule) × CacheState :=
  let (vals, toResolve, s₁) := CM2.phase1 now containingFile moduleNames 0 s
  let (asg, s₂) := CM2.phase2 env now containingFile toResolve s₁
  (applyAssignments vals asg, s₂)

end CM2

/-! # Theorems -/

/-! ## Pipeline helper lemmas -/

theorem CM1.getCachedCompilation_cacheCompilation_self
    (codeHash : String) (result : CachedCompilation) (s : CacheState) :
    CM1.getCachedCompilation codeHash (CM1.cacheCompilation codeHash result s) =
      some result := by
  unfold CM1.getCachedCompilation CM1.cacheCompilation
  exact AList.get?_set_self codeHash result _

theorem getCachedCompilation_withHost (codeHash : String) (s : CacheState)
    (h : HostView) :
    CM1.getCachedCompilation codeHash (s.withHost h) =
      CM1.getCachedCompilation codeHash s := rfl

/-- Every `200` response of the pipeline leaves the compilation-result
cache holding exactly the returned output and diagnostics flag under the
request's content key. -/
theorem compilePipeline_ok_cached (O : CompilerOracle) (s : CacheState)
    (T : String) (r : CompileResponse)
    (h : (compilePipeline O s T).1 = .ok r) :
    CM1.getCachedCompilation (contentKey O.hash T) (compilePipeline O s T).2.1 =
      some { compiledOutput := r.compiledOutput
             hasDiagnostics := r.hasDiagnostics } := by
  unfold compilePipeline at h ⊢
  rcases hc : CM1.getCachedCompilation (contentKey O.hash T) s with - | e
  · simp only [hc] at h ⊢
    rcases hA : O.analyze T s.host with ⟨ar, h₁⟩
    rcases ar with msg | ds
    · simp [hA] at h
    · simp only [hA] at h ⊢
      by_cases hd : ds.length > 0
      · simp only [if_pos hd] at h ⊢
        cases h
        simp [CM1.getCachedCompilation_cacheCompilation_self]
      · simp only [if_neg hd] at h ⊢
        rcases hE : O.emit T h₁ with ⟨er, h₂⟩
        rcases er with msg | p
        · simp [hE] at h
        · rcases p with ⟨eds, compiledCode⟩
          simp only [hE] at h ⊢
          by_cases he : eds.length > 0
          · simp only [if_pos he] at h ⊢
            cases h
            simp [CM1.getCachedCompilation_cacheCompilation_self]
          · simp only [if_neg he] at h ⊢
            rcases hF : O.format (O.cleanup compiledCode) with msg | formatted
            · simp [hF] at h
            · simp only [hF] at h ⊢
              cases h
              simp [CM1.getCachedCompilation_cacheCompilation_self]
  · simp only [hc] at h ⊢
    cases h
    simp [hc]

/-- A compilation-result cache hit short-circuits the pipeline. -/
theorem compilePipeline_hit (O : CompilerOracle) (s : CacheState)
    (T : String) (e : CachedCompilation)
    (h : CM1.getCachedCompilation (contentKey O.hash T) s = some e) :
    compilePipeline O s T =
      (.ok { compiledOutput := e.compiledOutput
             hasDiagnostics := e.hasDiagnostics
             fromCache := true }, s, []) := by
  unfold compilePipeline
  simp [h]

theorem compileAngular_post (O : CompilerOracle) (s : CacheState) (T : String)
    (hT : T ≠ "") :
    compileAngular O s { method := "POST", code := some T } =
      compilePipeline O s T := by
  simp [compileAngular, hT]

theorem compileAngular_ok_code_ne_empty (O : CompilerOracle) (s : CacheState)
    (T : String) (r : CompileResponse)
    (h : (compileAngular O s { method := "POST", code := some T }).1 = .ok r) :
    T ≠ "" := by
  intro hT
  subst hT
  simp [compileAngular] at h

/-! ## C7 — missing or empty `code` -/

/-- C7: a POST whose body carries no source text (missing `code` field
or empty string) is answered with a 400 error payload, the cache state
is untouched (all four mappings unchanged), and no external phase
(compiler analysis, emission, formatting) is invoked. -/
theorem missing_code_is_rejected_without_side_effects
    (O : CompilerOracle) (s : CacheState) (req : Req)
    (hm : req.method = "POST") (hc : req.code = none ∨ req.code = some "") :
    compileAngular O s req = (.badRequest "Code is required", s, []) := by
  rcases req with ⟨method, code⟩
  subst hm
  rcases hc with h | h <;> subst h <;> simp [compileAngular]

/-- Witness for C7 at a concrete request. -/
theorem missing_code_is_rejected_without_side_effects_witness :
    compileAngular
      { analyze := fun _ h => (.ok [], h), emit := fun _ h => (.ok ([], ""), h),
        cleanup := fun c => c, format := fun c => .ok c, hash := fun c => c }
      CacheState.initial { method := "POST", code := none } =
      (.badRequest "Code is required", CacheState.initial, []) :=
  missing_code_is_rejected_without_side_effects _ _ _ rfl (Or.inl rfl)

/-! ## C1 — idempotence of repeated compilation -/

/-- C1: for a fixed source text `T`, if a POST of `T` yields a compile
response, then an immediately repeated POST of `T` yields a compile
response with byte-identical `compiledOutput` and `hasDiagnostics`, and
the repeat reports `fromCache: true`. -/
theorem compile_twice_identical_and_cached
    (O : CompilerOracle) (s : CacheState) (T : String) (r₁ : CompileResponse)
    (h : (compileAngular O s { method := "POST", code := some T }).1 = .ok r₁) :
    ∃ r₂,
      (compileAngular O
          (compileAngular O s { method := "POST", code := some T }).2.1
          { method := "POST", code := some T }).1 = .ok r₂ ∧
      r₂.compiledOutput = r₁.compiledOutput ∧
      r₂.hasDiagnostics = r₁.hasDiagnostics ∧
      r₂.fromCache = true := by
  have hT : T ≠ "" := compileAngular_ok_code_ne_empty O s T r₁ h
  rw [compileAngular_post O s T hT] at h ⊢
  have hcached := compilePipeline_ok_cached O s T r₁ h
  rw [compileAngular_post O _ T hT]
  rw [compilePipeline_hit O _ T _ hcached]
  exact ⟨_, rfl, rfl, rfl, rfl⟩

/-- Witness for C1: a concrete successful compilation repeated. -/
theorem compile_twice_identical_and_cached_witness :
    ∃ r₂,
      (compileAngular
          { analyze := fun _ h => (.ok [], h), emit := fun _ h => (.ok ([], "out"), h),
            cleanup := fun c => c, format := fun c => .ok c, hash := fun c => c }
          (compileAngular
            { analyze := fun _ h => (.ok [], h), emit := fun _ h => (.ok ([], "out"), h),
              cleanup := fun c => c, format := fun c => .ok c, hash := fun c => c }
            CacheState.initial { method := "POST", code := some "x" }).2.1
          { method := "POST", code := some "x" }).1 = .ok r₂ ∧
      r₂.compiledOutput = "out" ∧
      r₂.hasDiagnostics = false ∧
      r₂.fromCache = true := by
  have h := compile_twice_identical_and_cached
    { analyze := fun _ h => (.ok [], h), emit := fun _ h => (.ok ([], "out"), h),
      cleanup := fun c => c, format := fun c => .ok c, hash := fun c => c }
    CacheState.initial "x"
    { compiledOutput := "out", hasDiagnostics := false, fromCache := false }
    (by decide)
  simpa using h

/-! ## C6 — whitespace-trim equivalence of the content key -/

theorem dropWhile_append_all {p : Char → Bool} {w l : List Char}
    (h : ∀ c ∈ w, p c = true) :
    (w ++ l).dropWhile p = l.dropWhile p := by
  induction w with
  | nil => rfl
  | cons a t ih =>
    simp only [List.cons_append, List.dropWhile_cons, h a (by simp)]
    exact ih fun c hc => h c (by simp [hc])

theorem dropWhile_append_of_ne {p : Char → Bool} {l w : List Char}
    (h : l.dropWhile p ≠ []) :
    (l ++ w).dropWhile p = l.dropWhile p ++ w := by
  induction l with
  | nil => simp [List.dropWhile] at h
  | cons a t ih =>
    by_cases hp : p a
    · simp only [List.dropWhile_cons, hp, if_true] at h
      simp only [List.cons_append, List.dropWhile_cons, hp, if_true]
      exact ih h
    · simp [List.dropWhile_cons, hp]

theorem dropWhile_nil_append {p : Char → Bool} {l w : List Char}
    (h : l.dropWhile p = []) :
    (l ++ w).dropWhile p = w.dropWhile p := by
  induction l with
  | nil => rfl
  | cons a t ih =>
    by_cases hp : p a
    · simp only [List.dropWhile_cons, hp, if_true] at h
      simp only [List.cons_append, List.dropWhile_cons, hp, if_true]
      exact ih h
    · simp [List.dropWhile_cons, hp] at h

theorem dropWhile_all_nil {p : Char → Bool} {l : List Char}
    (h : ∀ c ∈ l, p c = true) : l.dropWhile p = [] := by
  induction l with
  | nil => rfl
  | cons a t ih =>
    simp only [List.dropWhile_cons, h a (by simp), if_true]
    exact ih fun c hc => h c (by simp [hc])

theorem mem_of_mem_dropWhile {p : Char → Bool} {l : List Char} {c : Char}
    (h : c ∈ l.dropWhile p) : c ∈ l := by
  induction l with
  | nil => simp [List.dropWhile] at h
  | cons a t ih =>
    by_cases hp : p a
    · simp only [List.dropWhile_cons, hp, if_true] at h
      exact List.mem_cons_of_mem a (ih h)
    · simpa [List.dropWhile_cons, hp] using h

/-- Trimming is invariant under adding leading/trailing whitespace. -/
theorem jsTrimList_pad (t w₁ w₂ : List Char)
    (h₁ : ∀ c ∈ w₁, isJsWhitespace c = true)
    (h₂ : ∀ c ∈ w₂, isJsWhitespace c = true) :
    jsTrimList (w₁ ++ t ++ w₂) = jsTrimList t := by
  unfold jsTrimList
  rw [List.append_assoc, dropWhile_append_all h₁]
  by_cases hcase : t.dropWhile isJsWhitespace = []
  · rw [dropWhile_nil_append hcase, hcase]
    have hall : ∀ c ∈ (w₂.dropWhile isJsWhitespace).reverse,
        isJsWhitespace c = true := by
      intro c hc
      exact h₂ c (mem_of_mem_dropWhile (List.mem_reverse.mp hc))
    rw [dropWhile_all_nil hall]
    rfl
  · rw [dropWhile_append_of_ne hcase, List.reverse_append,
        dropWhile_append_all (by intro c hc; exact h₂ c (List.mem_reverse.mp hc))]

/-- C6: the compilation content key is the (md5) hash of the trimmed
source text, so padding the text with leading/trailing JavaScript
whitespace never changes the key; in particular a resubmission with a
trailing newline addresses the same compilation-result cache entry and
is served from it. -/
theorem contentKey_whitespace_invariant :
    (∀ (hash : String → String) (T W₁ W₂ : String),
      (∀ c ∈ W₁.data, isJsWhitespace c = true) →
      (∀ c ∈ W₂.data, isJsWhitespace c = true) →
      contentKey hash (W₁ ++ T ++ W₂) = contentKey hash T) ∧
    (∀ (O : CompilerOracle) (s : CacheState) (T : String) (r₁ : CompileResponse),
      (compileAngular O s { method := "POST", code := some T }).1 = .ok r₁ →
      ∃ r₂,
        (compileAngular O
            (compileAngular O s { method := "POST", code := some T }).2.1
            { method := "POST", code := some (T ++ "\n") }).1 = .ok r₂ ∧
        r₂.fromCache = true ∧
        r₂.compiledOutput = r₁.compiledOutput ∧
        r₂.hasDiagnostics = r₁.hasDiagnostics) := by
  have hkey : ∀ (hash : String → String) (T W₁ W₂ : String),
      (∀ c ∈ W₁.data, isJsWhitespace c = true) →
      (∀ c ∈ W₂.data, isJsWhitespace c = true) →
      contentKey hash (W₁ ++ T ++ W₂) = contentKey hash T := by
    intro hash T W₁ W₂ h₁ h₂
    unfold contentKey jsTrim
    congr 1
    show String.mk (jsTrimList (W₁ ++ T ++ W₂).data) = String.mk (jsTrimList T.data)
    rw [String.data_append, String.data_append]
    rw [jsTrimList_pad T.data W₁.data W₂.data h₁ h₂]
  refine ⟨hkey, ?_⟩
  intro O s T r₁ h
  have hT : T ≠ "" := compileAngular_ok_code_ne_empty O s T r₁ h
  have hT2 : T ++ "\n" ≠ "" := by
    intro hcontra
    have : (T ++ "\n").data = [] := by rw [hcontra]
    simp [String.data_append] at this
  rw [compileAngular_post O s T hT] at h ⊢
  have hcached := compilePipeline_ok_cached O s T r₁ h
  have hsamekey : contentKey O.hash (T ++ "\n") = contentKey O.hash T := by
    have := hkey O.hash T "" "\n" (by intro c hc; simp at hc) (by decide)
    simpa using this
  rw [compileAngular_post O _ (T ++ "\n") hT2]
  rw [compilePipeline_hit O _ (T ++ "\n")
    { compiledOutput := r₁.compiledOutput, hasDiagnostics := r₁.hasDiagnostics }
    (by rw [hsamekey]; exact hcached)]
  exact ⟨_, rfl, rfl, rfl, rfl⟩

/-- Witness for C6: concrete padding and a concrete trailing-newline
resubmission. -/
theorem contentKey_whitespace_invariant_witness :
    contentKey (fun c => c) (" \t" ++ "x" ++ "\n ") = contentKey (fun c => c) "x" ∧
    ∃ r₂,
      (compileAngular
          { analyze := fun _ h => (.ok [], h), emit := fun _ h => (.ok ([], "out"), h),
            cleanup := fun c => c, format := fun c => .ok c, hash := fun c => c }
          (compileAngular
            { analyze := fun _ h => (.ok [], h), emit := fun _ h => (.ok ([], "out"), h),
              cleanup := fun c => c, format := fun c => .ok c, hash := fun c => c }
            CacheState.initial { method := "POST", code := some "x" }).2.1
          { method := "POST", code := some ("x" ++ "\n") }).1 = .ok r₂ ∧
      r₂.fromCache = true ∧
      r₂.compiledOutput = "out" ∧
      r₂.hasDiagnostics = false := by
  constructor
  · exact contentKey_whitespace_invariant.1 (fun c => c) "x" " \t" "\n "
      (by decide) (by decide)
  · have h := contentKey_whitespace_invariant.2
      { analyze := fun _ h => (.ok [], h), emit := fun _ h => (.ok ([], "out"), h),
        cleanup := fun c => c, format := fun c => .ok c, hash := fun c => c }
      CacheState.initial "x"
      { compiledOutput := "out", hasDiagnostics := false, fromCache := false }
      (by decide)
    simpa using h

/-! ## C3 — diagnostics precede emission -/

/-- The handler either answers without running the pipeline (empty
trace) or delegates to the pipeline body for a nonempty `code`. -/
theorem compileAngular_cases (O : CompilerOracle) (s : CacheState) (req : Req) :
    (compileAngular O s req).2.2 = [] ∨
    ∃ T, req.code = some T ∧ T ≠ "" ∧
      compileAngular O s req = compilePipeline O s T := by
  rcases req with ⟨method, code⟩
  by_cases h1 : method = "OPTIONS"
  · left; simp [compileAngular, h1]
  · by_cases h2 : method = "POST"
    · rcases code with - | T
      · left; simp [compileAngular, h1, h2]
      · by_cases hT : T = ""
        · left; simp [compileAngular, h1, h2, hT]
        · right; exact ⟨T, rfl, hT, by simp [compileAngular, h1, h2, hT]⟩
    · left; simp [compileAngular, h1, h2]

/-- C3: (1) when the analysis phase produces diagnostics, the pipeline
responds `200` with `hasDiagnostics: true`, `compiledOutput` the
newline-joined formatted diagnostics, caches that text, and the trace
records neither emission nor formatting; (2) the emission step runs only
after an empty analysis-diagnostics list, and (3) the pretty-printer
runs only after emission also reported no diagnostics. -/
theorem diagnostics_precede_emission :
    (∀ (O : CompilerOracle) (s : CacheState) (T : String)
       (ds : List Diagnostic) (h₁ : HostView),
      T ≠ "" →
      CM1.getCachedCompilation (contentKey O.hash T) s = none →
      O.analyze T s.host = (.ok ds, h₁) →
      ds ≠ [] →
      compileAngular O s { method := "POST", code := some T } =
        (.ok { compiledOutput :=
                 String.intercalate "\n" (ds.map formatDiagnostic)
               hasDiagnostics := true
               fromCache := false },
         CM1.cacheCompilation (contentKey O.hash T)
           { compiledOutput := String.intercalate "\n" (ds.map formatDiagnostic)
             hasDiagnostics := true }
           (s.withHost h₁),
         [.analyze]) ∧
      .emit ∉ (compileAngular O s { method := "POST", code := some T }).2.2 ∧
      .format ∉ (compileAngular O s { method := "POST", code := some T }).2.2) ∧
    (∀ (O : CompilerOracle) (s : CacheState) (req : Req),
      .emit ∈ (compileAngular O s req).2.2 →
      ∃ T h₁, req.code = some T ∧ O.analyze T s.host = (Except.ok [], h₁)) ∧
    (∀ (O : CompilerOracle) (s : CacheState) (req : Req),
      .format ∈ (compileAngular O s req).2.2 →
      ∃ T h₁ h₂ compiledCode, req.code = some T ∧
        O.analyze T s.host = (Except.ok [], h₁) ∧
        O.emit T h₁ = (Except.ok ([], compiledCode), h₂)) := by
  refine ⟨?_, ?_, ?_⟩
  · intro O s T ds h₁ hT hmiss hana hne
    have hres : compileAngular O s { method := "POST", code := some T } =
        (.ok { compiledOutput :=
                 String.intercalate "\n" (ds.map formatDiagnostic)
               hasDiagnostics := true
               fromCache := false },
         CM1.cacheCompilation (contentKey O.hash T)
           { compiledOutput := String.intercalate "\n" (ds.map formatDiagnostic)
             hasDiagnostics := true }
           (s.withHost h₁),
         [.analyze]) := by
      rw [compileAngular_post O s T hT]
      unfold compilePipeline
      simp only [hmiss, hana]
      rw [if_pos (by cases ds with | nil => exact absurd rfl hne | cons a t => simp)]
    refine ⟨hres, ?_, ?_⟩ <;> rw [hres] <;> simp
  · intro O s req hmem
    rcases compileAngular_cases O s req with hnil | ⟨T, hc, hT, heq⟩
    · rw [hnil] at hmem; simp at hmem
    · rw [heq] at hmem
      unfold compilePipeline at hmem
      rcases hcc : CM1.getCachedCompilation (contentKey O.hash T) s with - | e
      · simp only [hcc] at hmem
        rcases hA : O.analyze T s.host with ⟨ar, h₁⟩
        rcases ar with m | ds
        · simp [hA] at hmem
        · simp only [hA] at hmem
          by_cases hd : ds.length > 0
          · simp [if_pos hd] at hmem
          · have hds : ds = [] := List.length_eq_zero.mp (by omega)
            exact ⟨T, h₁, hc, by rw [hA, hds]⟩
      · simp [hcc] at hmem
  · intro O s req hmem
    rcases compileAngular_cases O s req with hnil | ⟨T, hc, hT, heq⟩
    · rw [hnil] at hmem; simp at hmem
    · rw [heq] at hmem
      unfold compilePipeline at hmem
      rcases hcc : CM1.getCachedCompilation (contentKey O.hash T) s with - | e
      · simp only [hcc] at hmem
        rcases hA : O.analyze T s.host with ⟨ar, h₁⟩
        rcases ar with m | ds
        · simp [hA] at hmem
        · simp only [hA] at hmem
          by_cases hd : ds.length > 0
          · simp [if_pos hd] at hmem
          · have hds : ds = [] := List.length_eq_zero.mp (by omega)
            simp only [if_neg hd] at hmem
            rcases hE : O.emit T h₁ with ⟨er, h₂⟩
            rcases er with m | p
            · simp [hE] at hmem
            · rcases p with ⟨eds, compiledCode⟩
              simp only [hE] at hmem
              by_cases he : eds.length > 0
              · simp [if_pos he] at hmem
              · have heds : eds = [] := List.length_eq_zero.mp (by omega)
                exact ⟨T, h₁, h₂, compiledCode, hc,
                  by rw [hA, hds], by rw [hE, heds]⟩
      · simp [hcc] at hmem

/-- A concrete failing analysis used in witnesses: one diagnostic with no
file and no position. -/
def diagSample : Diagnostic :=
  { file := none, start := none, category := 1, code := 2322,
    messageFlattened := "Type mismatch" }

/-- Witness for C3: a concrete submission with one analysis diagnostic
is answered with the formatted text and neither emission nor formatting
in the trace. -/
theorem diagnostics_precede_emission_witness :
    compileAngular
      { analyze := fun _ h => (.ok [diagSample], h),
        emit := fun _ h => (.ok ([], "out"), h),
        cleanup := fun c => c, format := fun c => .ok c, hash := fun c => c }
      CacheState.initial { method := "POST", code := some "bad" } =
      (.ok { compiledOutput := "main.ts(1,1): Error TS2322: Type mismatch"
             hasDiagnostics := true
             fromCache := false },
       CM1.cacheCompilation "bad"
         { compiledOutput := "main.ts(1,1): Error TS2322: Type mismatch"
           hasDiagnostics := true }
         (CacheState.initial.withHost CacheState.initial.host),
       [.analyze]) := by
  have h := (diagnostics_precede_emission.1
    { analyze := fun _ h => (.ok [diagSample], h),
      emit := fun _ h => (.ok ([], "out"), h),
      cleanup := fun c => c, format := fun c => .ok c, hash := fun c => c }
    CacheState.initial "bad" [diagSample] CacheState.initial.host
    (by decide) rfl rfl (by simp)).1
  rw [h]
  rfl

/-! ## C8 — diagnostic formatting -/

/-- A diagnostic that has a source file but no start position: the
formatter keeps the file's own name and defaults only the position. -/
def diagNoStart : Diagnostic :=
  { file := some { fileName := "/app.ts"
                   getLineAndCharacterOfPosition := fun _ => (5, 7) }
    start := none, category := 1, code := 100, messageFlattened := "m" }

/-- Counterexample to C8 as stated: a diagnostic lacking only the start
position is NOT rendered with file name `main.ts` — it keeps its file's
name (here `/app.ts`) and only the position defaults to `(1,1)`. -/
theorem diagnostic_format_counterexample :
    diagNoStart.start = none ∧
    formatDiagnostic diagNoStart = "/app.ts(1,1): Error TS100: m" ∧
    formatDiagnostic diagNoStart ≠ "main.ts(1,1): Error TS100: m" := by
  refine ⟨rfl, by decide, by decide⟩

/-- C8 (amended): every collected analysis diagnostic is formatted as
`<file>(<line>,<col>): <Category> TS<code>: <message>` with 1-based
line and column, the formatted lines are newline-joined into
`compiledOutput`; a diagnostic lacking an associated file is rendered
with file name `main.ts` and position `(1,1)`, while a diagnostic with a
file but no start position keeps its file's name and is rendered at
position `(1,1)`. -/
theorem diagnostic_format_spec :
    (∀ (O : CompilerOracle) (s : CacheState) (T : String)
       (ds : List Diagnostic) (h₁ : HostView),
      T ≠ "" →
      CM1.getCachedCompilation (contentKey O.hash T) s = none →
      O.analyze T s.host = (.ok ds, h₁) →
      ds ≠ [] →
      (compileAngular O s { method := "POST", code := some T }).1 =
        .ok { compiledOutput :=
                String.intercalate "\n" (ds.map formatDiagnostic)
              hasDiagnostics := true
              fromCache := false }) ∧
    (∀ (d : Diagnostic) (f : DiagFile) (st l c : Nat),
      d.file = some f → f.fileName ≠ "" → d.start = some st →
      f.getLineAndCharacterOfPosition st = (l, c) →
      formatDiagnostic d =
        f.fileName ++ "(" ++ toString (l + 1) ++ "," ++ toString (c + 1) ++
          "): " ++ (categoryName d.category).getD "Error" ++
          " TS" ++ toString d.code ++ ": " ++ d.messageFlattened) ∧
    (∀ d : Diagnostic, d.file = none →
      formatDiagnostic d =
        "main.ts(1,1): " ++ (categoryName d.category).getD "Error" ++
          " TS" ++ toString d.code ++ ": " ++ d.messageFlattened) ∧
    (∀ (d : Diagnostic) (f : DiagFile),
      d.file = some f → f.fileName ≠ "" → d.start = none →
      formatDiagnostic d =
        f.fileName ++ "(1,1): " ++ (categoryName d.category).getD "Error" ++
          " TS" ++ toString d.code ++ ": " ++ d.messageFlattened) := by
  refine ⟨?_, ?_, ?_, ?_⟩
  · intro O s T ds h₁ hT hmiss hana hne
    rw [compileAngular_post O s T hT]
    unfold compilePipeline
    simp only [hmiss, hana]
    rw [if_pos (by cases ds with | nil => exact absurd rfl hne | cons a t => simp)]
  · intro d f st l c hf hfn hst hlc
    simp only [formatDiagnostic, hf, hst, hlc, if_neg hfn]
  · intro d hf
    simp only [formatDiagnostic, hf]
    have hpre : ("main.ts" ++ "(" ++ toString (0 + 1) ++ "," ++
        toString (0 + 1) ++ "): " : String) = "main.ts(1,1): " := by decide
    rw [hpre]
  · intro d f hf hfn hst
    simp only [formatDiagnostic, hf, hst, if_neg hfn]
    have hpre : f.fileName ++ "(" ++ toString (0 + 1) ++ "," ++
        toString (0 + 1) ++ "): " = f.fileName ++ "(1,1): " := by
      rw [String.append_assoc, String.append_assoc, String.append_assoc,
        String.append_assoc]
      congr 1
    rw [hpre]

/-- Witness for C8 (amended), at a concrete diagnostic with a file and a
start position mapped to 0-based line 4, column 6. -/
theorem diagnostic_format_spec_witness :
    formatDiagnostic
        { file := some { fileName := "/main.ts"
                         getLineAndCharacterOfPosition := fun _ => (4, 6) }
          start := some 12, category := 1, code := 2322,
          messageFlattened := "bad type" } =
      "/main.ts(5,7): Error TS2322: bad type" := by
  have h := diagnostic_format_spec.2.1
    { file := some { fileName := "/main.ts"
                     getLineAndCharacterOfPosition := fun _ => (4, 6) }
      start := some 12, category := 1, code := 2322,
      messageFlattened := "bad type" }
    { fileName := "/main.ts", getLineAndCharacterOfPosition := fun _ => (4, 6) }
    12 4 6 rfl (by decide) rfl rfl
  rw [h]
  rfl

/-! ## C4 — bounded compilation-result cache -/

theorem AList.keys_drop_subset {α : Type} (n : Nat) (m : AList α) (k : String)
    (h : k ∈ AList.keys (m.drop n)) : k ∈ AList.keys m := by
  unfold AList.keys at h ⊢
  obtain ⟨p, hp, hpk⟩ := List.mem_map.mp h
  exact List.mem_map.mpr ⟨p, List.drop_subset n m hp, hpk⟩

/-- When every key is a nonempty string, the cleanup loop removes
exactly the `n` oldest entries. -/
theorem CM2.cleanupLoop_drop (n : Nat) (m : AList CachedCompilation)
    (h : ∀ k ∈ AList.keys m, k ≠ "") :
    CM2.cleanupLoop n m = m.drop n := by
  induction n generalizing m with
  | zero => simp [CM2.cleanupLoop]
  | succ n ih =>
    cases m with
    | nil => simp [CM2.cleanupLoop, AList.firstKey?]
    | cons p t =>
      obtain ⟨k, v⟩ := p
      have hk : k ≠ "" := h k (by rw [AList.keys_cons]; exact List.mem_cons_self k _)
      simp only [CM2.cleanupLoop, AList.firstKey?, if_neg hk,
        AList.delete_firstKey, List.drop_succ_cons]
      exact ih t fun j hj =>
        h j (by rw [AList.keys_cons]; exact List.mem_cons_of_mem k hj)

/-- A first key that is the empty string stops the cleanup loop
immediately (`if (nextKey)` is false for `""`). -/
theorem CM2.cleanupLoop_empty_first (n : Nat) (m : AList CachedCompilation)
    (h : m.firstKey? = some "") : CM2.cleanupLoop n m = m := by
  cases n with
  | zero => rfl
  | succ n => simp [CM2.cleanupLoop, h]

/-- One `cacheCompilation` call with nonempty keys everywhere keeps the
store within capacity and leaves the cleanup flag clear. -/
theorem CM2.cacheCompilation_step_bound
    (k : String) (v : CachedCompilation) (s : CacheState)
    (hkeys : ∀ j ∈ AList.keys s.compilation, j ≠ "")
    (hflag : s.isCleaning = false)
    (hsize : s.compilation.size ≤ MAX_CACHE_SIZE) :
    (CM2.cacheCompilation k v s).compilation.size ≤ MAX_CACHE_SIZE ∧
    (CM2.cacheCompilation k v s).isCleaning = false ∧
    (k ≠ "" → ∀ j ∈ AList.keys (CM2.cacheCompilation k v s).compilation, j ≠ "") := by
  by_cases hc : s.compilation.size ≥ MAX_CACHE_SIZE
  · have hcond : s.compilation.size ≥ MAX_CACHE_SIZE ∧ s.isCleaning = false :=
      ⟨hc, hflag⟩
    unfold CM2.cacheCompilation
    rw [if_pos hcond, CM2.cleanupLoop_drop _ _ hkeys]
    refine ⟨?_, rfl, ?_⟩
    · show (AList.set k v (s.compilation.drop (MAX_CACHE_SIZE / 10))).length ≤
        MAX_CACHE_SIZE
      have h1 : (s.compilation.drop (MAX_CACHE_SIZE / 10)).length =
          s.compilation.length - MAX_CACHE_SIZE / 10 := List.length_drop _ _
      have h2 := AList.length_set_le k v (s.compilation.drop (MAX_CACHE_SIZE / 10))
      have h3 : s.compilation.length = MAX_CACHE_SIZE := le_antisymm hsize hc
      unfold MAX_CACHE_SIZE at *
      omega
    · intro hk j hj
      have hj2 : j ∈ AList.keys
          (AList.set k v (s.compilation.drop (MAX_CACHE_SIZE / 10))) := hj
      rcases AList.keys_set_subset k j v _ hj2 with h | h
      · rw [h]; exact hk
      · exact hkeys j (AList.keys_drop_subset _ _ _ h)
  · unfold CM2.cacheCompilation
    rw [if_neg (by intro hcond; exact hc hcond.1)]
    refine ⟨?_, hflag, ?_⟩
    · show (AList.set k v s.compilation).length ≤ MAX_CACHE_SIZE
      have h2 := AList.length_set_le k v s.compilation
      have h4 : s.compilation.length < MAX_CACHE_SIZE := by
        unfold AList.size at hc
        omega
      omega
    · intro hk j hj
      have hj2 : j ∈ AList.keys (AList.set k v s.compilation) := hj
      rcases AList.keys_set_subset k j v _ hj2 with h | h
      · rw [h]; exact hk
      · exact hkeys j h

/-- C4 counterexample construction: the i-th flood key, `i` repetitions
of `k` — 1001 distinct keys, the first (oldest) being the empty
string. -/
def floodKey (i : Nat) : String := String.mk (List.replicate i 'k')

/-- The value stored with every flood key. -/
def floodVal : CachedCompilation := { compiledOutput := "o", hasDiagnostics := false }

/-- The flooded insert list: `""`, `"k"`, `"kk"`, …, 1001 distinct
entries. -/
def floodInserts : List (String × CachedCompilation) :=
  (List.range 1001).map (fun i => (floodKey i, floodVal))

/-- The state after writing all flood entries through
`CM2.cacheCompilation`, starting from the empty store. -/
def floodState : CacheState :=
  floodInserts.foldl (fun s kv => CM2.cacheCompilation kv.1 kv.2 s)
    CacheState.initial

theorem floodKey_injective : Function.Injective floodKey := by
  intro i j h
  have hi : (floodKey i).length = i := by
    simp [floodKey, String.length]
  have hj : (floodKey j).length = j := by
    simp [floodKey, String.length]
  rw [← hi, ← hj, h]

theorem floodKey_fresh (n : Nat) :
    floodKey n ∉ AList.keys ((List.range n).map (fun i => (floodKey i, floodVal))) := by
  intro hmem
  unfold AList.keys at hmem
  rw [List.map_map] at hmem
  obtain ⟨i, hi, hik⟩ := List.mem_map.mp hmem
  have : i = n := floodKey_injective hik
  rw [this] at hi
  exact absurd (List.mem_range.mp hi) (lt_irrefl n)

/-- The state after the first `n ≤ 1000` flood inserts is exactly the
entry list itself (all inserts fresh, below capacity). -/
theorem floodState_prefix (n : Nat) (hn : n ≤ 1000) :
    ((List.range n).map (fun i => (floodKey i, floodVal))).foldl
      (fun s kv => CM2.cacheCompilation kv.1 kv.2 s) CacheState.initial =
    { CacheState.initial with
      compilation := (List.range n).map (fun i => (floodKey i, floodVal)) } := by
  induction n with
  | zero => rfl
  | succ n ih =>
    have hn' : n ≤ 1000 := Nat.le_of_succ_le hn
    rw [List.range_succ, List.map_append, List.foldl_append, ih hn']
    simp only [List.map_cons, List.map_nil, List.foldl_cons, List.foldl_nil]
    have hbelow : ¬((AList.size ((List.range n).map
          (fun i => (floodKey i, floodVal))) ≥ MAX_CACHE_SIZE) ∧
        ({ CacheState.initial with
            compilation := (List.range n).map (fun i => (floodKey i, floodVal))
          } : CacheState).isCleaning = false) := by
      intro hcond
      have h1 := hcond.1
      unfold AList.size MAX_CACHE_SIZE at h1
      rw [List.length_map, List.length_range] at h1
      omega
    unfold CM2.cacheCompilation
    rw [if_neg hbelow]
    rw [AList.set_fresh _ _ _ (floodKey_fresh n)]

/-- An insert into a store at capacity whose oldest key is the empty
string evicts nothing and appends the fresh entry. -/
theorem CM2.cacheCompilation_at_capacity_empty_first
    (k : String) (v : CachedCompilation) (s : CacheState)
    (hflag : s.isCleaning = false)
    (hsize : s.compilation.size ≥ MAX_CACHE_SIZE)
    (hfirst : AList.firstKey? s.compilation = some "")
    (hfresh : k ∉ AList.keys s.compilation) :
    (CM2.cacheCompilation k v s).compilation = s.compilation ++ [(k, v)] := by
  unfold CM2.cacheCompilation
  rw [if_pos ⟨hsize, hflag⟩, CM2.cleanupLoop_empty_first _ _ hfirst,
    AList.set_fresh _ _ _ hfresh]

set_option maxRecDepth 8192 in
/-- Counterexample to C4 as stated: inserting 1001 distinct entries via
`CM2.cacheCompilation` from the empty store leaves 1001 entries — more
than `MAX_CACHE_SIZE` — because the oldest key is the empty string,
which the cleanup loop's `if (nextKey)` treats as iterator exhaustion,
so no entry is evicted at capacity. -/
theorem bounded_cache_counterexample :
    (floodInserts.map Prod.fst).Nodup ∧
    floodState.compilation.size = 1001 ∧
    MAX_CACHE_SIZE < floodState.compilation.size := by
  have hnodup : (floodInserts.map Prod.fst).Nodup := by
    have hmap : floodInserts.map Prod.fst = (List.range 1001).map floodKey := by
      unfold floodInserts
      rw [List.map_map]
      rfl
    rw [hmap]
    exact (List.nodup_range 1001).map floodKey_injective
  have hstate : floodState.compilation.size = 1001 := by
    unfold floodState floodInserts
    have h1001 : (1001 : Nat) = 1000 + 1 := rfl
    rw [h1001, List.range_succ, List.map_append, List.foldl_append,
      floodState_prefix 1000 (le_refl 1000)]
    simp only [List.map_cons, List.map_nil, List.foldl_cons, List.foldl_nil]
    have hfirst : AList.firstKey?
        ((List.range 1000).map (fun i => (floodKey i, floodVal))) = some "" := by
      rw [show (1000 : Nat) = 999 + 1 from rfl, List.range_succ_eq_map,
        List.map_cons]
      rfl
    have happ := CM2.cacheCompilation_at_capacity_empty_first
      (floodKey 1000) floodVal
      { CacheState.initial with
        compilation := (List.range 1000).map (fun i => (floodKey i, floodVal)) }
      rfl
      (by show ((List.range 1000).map (fun i => (floodKey i, floodVal))).length ≥
            MAX_CACHE_SIZE
          rw [List.length_map, List.length_range]
          decide)
      hfirst
      (floodKey_fresh 1000)
    rw [happ]
    show ((List.range 1000).map (fun i => (floodKey i, floodVal)) ++
      [(floodKey 1000, floodVal)]).length = 1001
    rw [List.length_append, List.length_map, List.length_range]
    decide
  exact ⟨hnodup, hstate, by rw [hstate]; decide⟩

/-- C4 (amended): provided no cache key is the empty string (the cleanup
loop treats an empty-string key as iterator exhaustion and stops), (1)
any sequence of inserts through `CM2.cacheCompilation` starting within
capacity never grows the result store beyond `MAX_CACHE_SIZE`; (2) an
insert into a store at capacity first removes the oldest 10% of entries
(`Math.floor(MAX_CACHE_SIZE * 0.1) = 100`, by insertion order) and then
inserts; (3) a reentrant call while a cleanup is in progress
(`isCleaningCompilationCache = true`) skips the cleanup and still
performs the insert. -/
theorem bounded_cache_amended :
    (∀ (inserts : List (String × CachedCompilation)) (s : CacheState),
      (∀ kv ∈ inserts, kv.1 ≠ "") →
      (∀ j ∈ AList.keys s.compilation, j ≠ "") →
      s.isCleaning = false →
      s.compilation.size ≤ MAX_CACHE_SIZE →
      (inserts.foldl (fun s kv => CM2.cacheCompilation kv.1 kv.2 s)
          s).compilation.size ≤ MAX_CACHE_SIZE) ∧
    (∀ (k : String) (v : CachedCompilation) (s : CacheState),
      (∀ j ∈ AList.keys s.compilation, j ≠ "") →
      s.isCleaning = false →
      s.compilation.size ≥ MAX_CACHE_SIZE →
      CM2.cacheCompilation k v s =
        { s with
          compilation :=
            AList.set k v (s.compilation.drop (MAX_CACHE_SIZE / 10))
          isCleaning := false }) ∧
    (∀ (k : String) (v : CachedCompilation) (s : CacheState),
      s.isCleaning = true →
      CM2.cacheCompilation k v s =
        { s with compilation := AList.set k v s.compilation }) := by
  refine ⟨?_, ?_, ?_⟩
  · intro inserts
    induction inserts with
    | nil => intro s _ _ _ hsize; exact hsize
    | cons kv rest ih =>
      intro s hins hkeys hflag hsize
      obtain ⟨hb, hf, hk⟩ :=
        CM2.cacheCompilation_step_bound kv.1 kv.2 s hkeys hflag hsize
      rw [List.foldl_cons]
      exact ih (CM2.cacheCompilation kv.1 kv.2 s)
        (fun p hp => hins p (List.mem_cons_of_mem kv hp))
        (hk (hins kv (List.mem_cons_self kv rest))) hf hb
  · intro k v s hkeys hflag hsize
    unfold CM2.cacheCompilation
    rw [if_pos ⟨hsize, hflag⟩, CM2.cleanupLoop_drop _ _ hkeys]
  · intro k v s hflag
    unfold CM2.cacheCompilation
    rw [if_neg (by intro hcond; rw [hflag] at hcond; exact absurd hcond.2 (by simp))]

/-- Witness for C4 (amended): a concrete insert sequence stays bounded,
and a concrete reentrant call skips cleanup but inserts. -/
theorem bounded_cache_amended_witness :
    (([("a", { compiledOutput := "o", hasDiagnostics := false }),
       ("b", { compiledOutput := "p", hasDiagnostics := true })] :
        List (String × CachedCompilation)).foldl
      (fun s kv => CM2.cacheCompilation kv.1 kv.2 s)
      CacheState.initial).compilation.size ≤ MAX_CACHE_SIZE ∧
    CM2.cacheCompilation "k" { compiledOutput := "o", hasDiagnostics := false }
        { CacheState.initial with isCleaning := true } =
      { CacheState.initial with
        compilation := [("k", { compiledOutput := "o", hasDiagnostics := false })]
        isCleaning := true } := by
  constructor
  · exact bounded_cache_amended.1 _ CacheState.initial
      (by decide) (by decide) rfl (by decide)
  · exact bounded_cache_amended.2.2 "k"
      { compiledOutput := "o", hasDiagnostics := false }
      { CacheState.initial with isCleaning := true } rfl

/-! ## C5 — the in-flight marker is always cleared -/

theorem CM2.lookupStep_resolving (now : Nat) (containingFile : String)
    (s : CacheState) (moduleName : String) :
    ((CM2.lookupStep now containingFile s moduleName).2).resolving =
      s.resolving := by
  unfold CM2.lookupStep
  rcases h1 : CM2.getEnhancedCachedModule
      (createCacheKey moduleName containingFile) s with - | c
  · rcases h2 : CM2.getLegacyCachedModule
        (createCacheKey moduleName containingFile) s with - | p
    · simp [h1, h2]
    · simp [h1, h2, CM2.migrateLegacyToEnhanced]
  · simp [h1]

theorem CM2.phase1_resolving (now : Nat) (containingFile : String)
    (moduleNames : List String) (i : Nat) (s : CacheState) :
    ((CM2.phase1 now containingFile moduleNames i s).2.2).resolving =
      s.resolving := by
  induction moduleNames generalizing i s with
  | nil => rfl
  | cons m rest ih =>
    unfold CM2.phase1
    rcases hstep : CM2.lookupStep now containingFile s m with ⟨o, s₁⟩
    have hres : s₁.resolving = s.resolving := by
      have := CM2.lookupStep_resolving now containingFile s m
      rw [hstep] at this
      exact this
    rcases hrec : CM2.phase1 now containingFile rest (i + 1) s₁ with ⟨vals, toResolve, s₂⟩
    have hres2 : s₂.resolving = s₁.resolving := by
      have := ih (i + 1) s₁
      rw [hrec] at this
      exact this
    cases o <;> simp [hstep, hrec, hres2, hres]

theorem CM2.resolveAndCache_resolving_subset (env : ResolveEnv) (now : Nat)
    (containingFile moduleName cacheKey : String) (s : CacheState) (j : String)
    (h : j ∈ ((CM2.resolveAndCache env now containingFile moduleName cacheKey
        s).2).resolving) :
    j ∈ s.resolving := by
  unfold CM2.resolveAndCache at h
  rcases hr : freshResolve env containingFile moduleName with - | rm
  · simp only [hr, List.mem_filter] at h
    exact h.1
  · simp only [hr, CM2.cacheResolvedModule, Bool.false_eq_true, if_false,
      List.mem_filter] at h
    exact h.1

theorem CM2.resolveStep_resolving_subset (env : ResolveEnv) (now : Nat)
    (containingFile : String) (entry : Nat × String × String) (s : CacheState)
    (j : String)
    (h : j ∈ ((CM2.resolveStep env now containingFile entry s).2).resolving) :
    j ∈ s.resolving := by
  obtain ⟨index, moduleName, cacheKey⟩ := entry
  unfold CM2.resolveStep CM2.markModuleAsResolving at h
  by_cases hmem : s.resolving.contains cacheKey
  · simp only [hmem, if_true, Bool.false_eq_true, if_false] at h
    rcases hg : CM2.getEnhancedCachedModule cacheKey s with - | c
    · simp only [hg] at h
      exact CM2.resolveAndCache_resolving_subset env now containingFile
        moduleName cacheKey s j h
    · simp only [hg] at h
      exact h
  · simp only [hmem, if_false, if_true] at h
    have h3 : j ∈ cacheKey :: s.resolving :=
      CM2.resolveAndCache_resolving_subset env now containingFile
        moduleName cacheKey { s with resolving := cacheKey :: s.resolving } j h
    rcases List.mem_cons.mp h3 with heq | hmem2
    · exfalso
      -- `j = cacheKey` is impossible: `resolveAndCache` filters the key out
      subst heq
      unfold CM2.resolveAndCache CM2.cacheResolvedModule at h
      rcases hr : freshResolve env containingFile moduleName with - | rm
      · simp [hr, List.mem_filter] at h
      · simp [hr, List.mem_filter] at h
    · exact hmem2

theorem CM2.phase2_resolving_subset (env : ResolveEnv) (now : Nat)
    (containingFile : String) (toResolve : List (Nat × String × String))
    (s : CacheState) (j : String)
    (h : j ∈ ((CM2.phase2 env now containingFile toResolve s).2).resolving) :
    j ∈ s.resolving := by
  induction toResolve generalizing s with
  | nil => exact h
  | cons entry rest ih =>
    unfold CM2.phase2 at h
    rcases hstep : CM2.resolveStep env now containingFile entry s with ⟨a, s₁⟩
    rcases hrec : CM2.phase2 env now containingFile rest s₁ with ⟨asg, s₂⟩
    simp only [hstep, hrec] at h
    have h1 : j ∈ s₁.resolving := by
      have h2 := ih s₁
      rw [hrec] at h2
      exact h2 h
    have h4 := CM2.resolveStep_resolving_subset env now containingFile entry s j
    rw [hstep] at h4
    exact h4 h1

/-- C5: the in-flight `resolvingModules` marker never survives the
conclusion of a resolution attempt.  (1) `cacheResolvedModule` removes
the key in every case — including when the enhanced or the legacy cache
write throws — because the removal sits in a `finally` block.  (2) A
full run of the part_002 batch resolver leaves no key in the in-flight
set that was not already there before the call (keys it marked are
removed either by the success-path cache write or by the explicit
failure-path `resolvingModules.delete`). -/
theorem inflight_marker_cleared :
    (∀ (crashEnhanced crashLegacy : Bool) (cacheKey : String)
       (rm : ResolvedModule) (now : Nat) (s : CacheState),
      cacheKey ∉ ((CM2.cacheResolvedModule crashEnhanced crashLegacy cacheKey
          rm now s).2).resolving) ∧
    (∀ (env : ResolveEnv) (now : Nat) (s : CacheState)
       (moduleNames : List String) (containingFile : String) (j : String),
      j ∈ ((CM2.resolveModuleNames env now s moduleNames
          containingFile).2).resolving →
      j ∈ s.resolving) := by
  constructor
  · intro c₁ c₂ cacheKey rm now s
    unfold CM2.cacheResolvedModule
    cases c₁ <;> cases c₂ <;> simp [List.mem_filter]
  · intro env now s moduleNames containingFile j h
    unfold CM2.resolveModuleNames at h
    rcases hp1 : CM2.phase1 now containingFile moduleNames 0 s
      with ⟨vals, toResolve, s₁⟩
    rcases hp2 : CM2.phase2 env now containingFile toResolve s₁ with ⟨asg, s₂⟩
    simp only [hp1, hp2] at h
    have h1 : j ∈ s₁.resolving := by
      have h5 := CM2.phase2_resolving_subset env now containingFile toResolve s₁ j
      rw [hp2] at h5
      exact h5 h
    have h2 : s₁.resolving = s.resolving := by
      have h6 := CM2.phase1_resolving now containingFile moduleNames 0 s
      rw [hp1] at h6
      exact h6
    rw [h2] at h1
    exact h1

/-- Witness for C5: a crashing cache write still clears its key, and a
failed fresh resolution leaves only the other request's marker. -/
theorem inflight_marker_cleared_witness :
    ("k" ∉ ((CM2.cacheResolvedModule true false "k"
        { resolvedFileName := "/f.d.ts", isExternalLibraryImport := none } 7
        { CacheState.initial with resolving := ["k", "other"] }).2).resolving) ∧
    ("other" ∈ ((CM2.resolveModuleNames
        { primary := fun _ _ => .ok none, fallback := fun _ => none } 7
        { CacheState.initial with resolving := ["other"] }
        ["missing-module"] "/main.ts").2).resolving →
      "other" ∈ ({ CacheState.initial with
        resolving := ["other"] } : CacheState).resolving) := by
  constructor
  · exact inflight_marker_cleared.1 true false "k"
      { resolvedFileName := "/f.d.ts", isExternalLibraryImport := none } 7
      { CacheState.initial with resolving := ["k", "other"] }
  · exact inflight_marker_cleared.2
      { primary := fun _ _ => .ok none, fallback := fun _ => none } 7
      { CacheState.initial with resolving := ["other"] }
      ["missing-module"] "/main.ts" "other"

/-! ## C2 — order-preserving, total batch resolution

The specification's per-specifier contract: each input position receives
the outcome of resolving exactly that specifier — a cache-derived
descriptor when the caches (as of the start of the batch) can serve it,
otherwise the outcome of fresh resolution (primary resolver with
exception fallback, then the filesystem heuristic), otherwise
`undefined`.  The theorem shows the two-phase index-juggling
implementation realises this position-for-position. -/

/-- The descriptor the legacy cache yields for a specifier, if any
(`isExternalLibraryImport: true`). -/
def legacyLookup (containingFile : String) (s : CacheState)
    (moduleName : String) : Option ResolvedModule :=
  (CM1.getLegacyCachedModule (createCacheKey moduleName containingFile) s).map
    (fun p => { resolvedFileName := p, isExternalLibraryImport := some true })

/-- The cache-lookup value of one specifier against a fixed state
(TTL-checked enhanced entry first, then the legacy path); `none` when
neither cache can serve it. -/
def lookupValue (now : Nat) (containingFile : String) (s : CacheState)
    (moduleName : String) : Option ResolvedModule :=
  match CM1.getEnhancedCachedModule (createCacheKey moduleName containingFile) s with
  | some c =>
      if CM1.isCacheValid now c then
        some { resolvedFileName := c.resolvedFileName
               isExternalLibraryImport := some c.isExternalLibraryImport }
      else legacyLookup containingFile s moduleName
  | none => legacyLookup containingFile s moduleName

/-- Modelled from the spec: the resolution outcome owed to one
specifier — its cache-lookup value, else its fresh resolution. -/
def resolveOneSpec (env : ResolveEnv) (now : Nat) (containingFile : String)
    (s : CacheState) (moduleName : String) : Option ResolvedModule :=
  match lookupValue now containingFile s moduleName with
  | some v => some v
  | none => freshResolve env containingFile moduleName

/-- Pair each element with its index, starting at `i`. -/
def withIdx {α : Type} : Nat → List α → List (Nat × α)
  | _, [] => []
  | i, a :: t => (i, a) :: withIdx (i + 1) t

theorem withIdx_map_fst {α : Type} (i : Nat) (l : List α) :
    (withIdx i l).map Prod.fst = List.range' i l.length := by
  induction l generalizing i with
  | nil => rfl
  | cons a t ih => simp [withIdx, List.range'_succ, ih]

theorem mem_withIdx {α : Type} (i : Nat) (l : List α) (p : Nat × α)
    (h : p ∈ withIdx i l) :
    ∃ (j : Nat) (hj : j < l.length), p.1 = i + j ∧ p.2 = l[j] := by
  induction l generalizing i with
  | nil => simp [withIdx] at h
  | cons a t ih =>
    rcases List.mem_cons.mp h with heq | hmem
    · exact ⟨0, by simp, by simp [heq], by simp [heq]⟩
    · obtain ⟨j, hj, h1, h2⟩ := ih (i + 1) hmem
      exact ⟨j + 1, by simpa using hj, by omega, by simpa using h2⟩

theorem getElem_mem_withIdx {α : Type} (i : Nat) (l : List α) (j : Nat)
    (hj : j < l.length) : (i + j, l[j]) ∈ withIdx i l := by
  induction l generalizing i j with
  | nil => simp at hj
  | cons a t ih =>
    cases j with
    | zero => simp [withIdx]
    | succ j =>
      have hj' : j < t.length := by simpa using hj
      have := ih (i + 1) j hj'
      simp only [withIdx, List.mem_cons]
      right
      have harith : i + (j + 1) = i + 1 + j := by omega
      rw [harith]
      simpa using this

theorem getq_set_ne {α : Type} (l : List α) (i j : Nat) (a : α) (h : i ≠ j) :
    (l.set i a)[j]? = l[j]? := by
  induction l generalizing i j with
  | nil => simp
  | cons b t ih =>
    cases i with
    | zero =>
      cases j with
      | zero => exact absurd rfl h
      | succ j => simp [List.set]
    | succ i =>
      cases j with
      | zero => simp [List.set]
      | succ j => simpa [List.set] using ih i j (by omega)

theorem getq_set_self {α : Type} (l : List α) (i : Nat) (a : α)
    (h : i < l.length) : (l.set i a)[i]? = some a := by
  induction l generalizing i with
  | nil => simp at h
  | cons b t ih =>
    cases i with
    | zero => simp [List.set]
    | succ i => simpa [List.set] using ih i (by simpa using h)

theorem TTL_pos : 0 < MODULE_RESOLUTION_TTL := by decide

/-- A freshly migrated enhanced entry is valid. -/
theorem isCacheValid_fresh (now : Nat) (p : String) (b : Bool) :
    CM1.isCacheValid now
      { resolvedFileName := p, isExternalLibraryImport := b,
        timestamp := now } = true := by
  unfold CM1.isCacheValid
  simp [Nat.sub_self, TTL_pos]

/-- The phase-1 outcome tag is exactly the cache-lookup value. -/
theorem lookupStep_fst (now : Nat) (containingFile : String) (s : CacheState)
    (moduleName : String) :
    (lookupStep now containingFile s moduleName).1 =
      match lookupValue now containingFile s moduleName with
      | some v => P1.hit v
      | none => P1.miss moduleName (createCacheKey moduleName containingFile) := by
  unfold lookupStep lookupValue lookupLegacyStep legacyLookup
  rcases he : CM1.getEnhancedCachedModule
      (createCacheKey moduleName containingFile) s with - | c
  · rcases hl : CM1.getLegacyCachedModule
        (createCacheKey moduleName containingFile) s with - | p
    · simp [he, hl]
    · simp [he, hl]
  · by_cases hv : CM1.isCacheValid now c
    · simp [he, hv]
    · rcases hl : CM1.getLegacyCachedModule
          (createCacheKey moduleName containingFile) s with - | p
      · simp [he, hv, hl]
      · simp [he, hv, hl]

/-- A cache miss leaves phase 1's state untouched. -/
theorem lookupStep_miss_state (now : Nat) (containingFile : String)
    (s : CacheState) (moduleName : String)
    (h : lookupValue now containingFile s moduleName = none) :
    lookupStep now containingFile s moduleName =
      (P1.miss moduleName (createCacheKey moduleName containingFile), s) := by
  unfold lookupValue legacyLookup at h
  unfold lookupStep lookupLegacyStep
  rcases he : CM1.getEnhancedCachedModule
      (createCacheKey moduleName containingFile) s with - | c
  · rcases hl : CM1.getLegacyCachedModule
        (createCacheKey moduleName containingFile) s with - | p
    · simp [he, hl]
    · simp [he, hl] at h
  · by_cases hv : CM1.isCacheValid now c
    · simp [he, hv] at h
    · rcases hl : CM1.getLegacyCachedModule
          (createCacheKey moduleName containingFile) s with - | p
      · simp [he, hv, hl]
      · simp [he, hv, hl] at h

/-- Lookup values only depend on the two module caches at the
specifier's own key. -/
theorem lookupValue_ext (now : Nat) (containingFile : String)
    (s₁ s₂ : CacheState) (m' : String)
    (he : CM1.getEnhancedCachedModule (createCacheKey m' containingFile) s₁ =
      CM1.getEnhancedCachedModule (createCacheKey m' containingFile) s₂)
    (hl : CM1.getLegacyCachedModule (createCacheKey m' containingFile) s₁ =
      CM1.getLegacyCachedModule (createCacheKey m' containingFile) s₂) :
    lookupValue now containingFile s₁ m' = lookupValue now containingFile s₂ m' := by
  unfold lookupValue legacyLookup
  rw [he, hl]

/-- Migrating some other key does not change a specifier's lookup
value. -/
theorem lookupValue_migrate_ne (now : Nat) (containingFile : String)
    (s : CacheState) (key p m' : String)
    (hkey : createCacheKey m' containingFile ≠ key) :
    lookupValue now containingFile
      (CM1.migrateLegacyToEnhanced key p now s) m' =
      lookupValue now containingFile s m' := by
  refine lookupValue_ext now containingFile _ s m' ?_ rfl
  show AList.get? (createCacheKey m' containingFile)
      (AList.set key (⟨p, true, now⟩ : EnhancedModuleCache) s.enhanced) =
    AList.get? (createCacheKey m' containingFile) s.enhanced
  exact AList.get?_set_ne _ _ _ _ (fun hc => hkey hc.symm)

/-- Migrating a specifier's own key gives it a valid enhanced entry with
the legacy path and `isExternalLibraryImport: true`. -/
theorem lookupValue_migrate_self (now : Nat) (containingFile : String)
    (s : CacheState) (key p m' : String)
    (hkey : createCacheKey m' containingFile = key) :
    lookupValue now containingFile
      (CM1.migrateLegacyToEnhanced key p now s) m' =
      some { resolvedFileName := p, isExternalLibraryImport := some true } := by
  have he : CM1.getEnhancedCachedModule (createCacheKey m' containingFile)
      (CM1.migrateLegacyToEnhanced key p now s) =
      some (⟨p, true, now⟩ : EnhancedModuleCache) := by
    show AList.get? (createCacheKey m' containingFile)
        (AList.set key (⟨p, true, now⟩ : EnhancedModuleCache) s.enhanced) = _
    rw [hkey]
    exact AList.get?_set_self _ _ _
  unfold lookupValue
  rw [he]
  simp [isCacheValid_fresh]

/-- Phase-1 cache lookups (including legacy-to-enhanced migration) never
change the lookup value of any specifier: a migration rewrites the
enhanced entry of its own key to the very descriptor the legacy cache
already yields for it, with a fresh (valid) timestamp. -/
theorem lookupValue_lookupStep (now : Nat) (containingFile : String)
    (s : CacheState) (moduleName m' : String) :
    lookupValue now containingFile
      ((lookupStep now containingFile s moduleName).2) m' =
      lookupValue now containingFile s m' := by
  have hleg : ∀ hp : lookupValue now containingFile s moduleName =
        legacyLookup containingFile s moduleName,
      lookupValue now containingFile
        ((lookupLegacyStep now containingFile s moduleName).2) m' =
        lookupValue now containingFile s m' := by
    intro hp
    unfold lookupLegacyStep
    rcases hl : CM1.getLegacyCachedModule
        (createCacheKey moduleName containingFile) s with - | p
    · simp
    · simp only []
      by_cases hkey : createCacheKey m' containingFile =
          createCacheKey moduleName containingFile
      · rw [lookupValue_migrate_self now containingFile s _ p m' hkey]
        -- before the migration the same legacy entry serves `m'`
        have hmain : lookupValue now containingFile s m' =
            lookupValue now containingFile s moduleName := by
          unfold lookupValue legacyLookup
          rw [hkey]
        rw [hmain, hp]
        unfold legacyLookup
        rw [hl]
        rfl
      · exact lookupValue_migrate_ne now containingFile s _ p m' hkey
  unfold lookupStep
  rcases he : CM1.getEnhancedCachedModule
      (createCacheKey moduleName containingFile) s with - | c
  · exact hleg (by unfold lookupValue; rw [he])
  · by_cases hv : CM1.isCacheValid now c
    · simp [he, hv]
    · simp only [he, hv, Bool.false_eq_true, if_false]
      exact hleg (by unfold lookupValue; rw [he]; simp [hv])

/-- Closed form of the phase-1 loop: position-for-position lookup
values, the work list of misses (with their original indices and cache
keys, in increasing index order), and lookup-value-preserving state
evolution. -/
theorem phase1_spec (now : Nat) (containingFile : String) (ms : List String)
    (i : Nat) (s : CacheState) :
    (phase1 now containingFile ms i s).1 =
      ms.map (fun m => lookupValue now containingFile s m) ∧
    (phase1 now containingFile ms i s).2.1 =
      ((withIdx i ms).filter
        (fun e => (lookupValue now containingFile s e.2).isNone)).map
        (fun e => (e.1, e.2, createCacheKey e.2 containingFile)) ∧
    (∀ m', lookupValue now containingFile
        ((phase1 now containingFile ms i s).2.2) m' =
      lookupValue now containingFile s m') := by
  induction ms generalizing i s with
  | nil => exact ⟨rfl, rfl, fun m' => rfl⟩
  | cons m rest ih =>
    rcases hstep : lookupStep now containingFile s m with ⟨o, s₁⟩
    have hinv : ∀ m', lookupValue now containingFile s₁ m' =
        lookupValue now containingFile s m' := by
      intro m'
      have h := lookupValue_lookupStep now containingFile s m m'
      rw [hstep] at h
      exact h
    obtain ⟨ih1, ih2, ih3⟩ := ih (i + 1) s₁
    rcases hrec : phase1 now containingFile rest (i + 1) s₁
      with ⟨vals, toResolve, s₂⟩
    simp only [hrec] at ih1 ih2 ih3
    have hfst := lookupStep_fst now containingFile s m
    simp only [hstep] at hfst
    have hmaps : rest.map (fun x => lookupValue now containingFile s₁ x) =
        rest.map (fun x => lookupValue now containingFile s x) :=
      List.map_congr_left fun a _ => hinv a
    have hfilter : (withIdx (i + 1) rest).filter
          (fun e => (lookupValue now containingFile s₁ e.2).isNone) =
        (withIdx (i + 1) rest).filter
          (fun e => (lookupValue now containingFile s e.2).isNone) :=
      List.filter_congr fun e _ => by rw [hinv e.2]
    rcases hl : lookupValue now containingFile s m with - | v
    · -- miss: the state is unchanged and the entry joins the work list
      have hms := lookupStep_miss_state now containingFile s m hl
      rw [hstep] at hms
      have ho : o = P1.miss m (createCacheKey m containingFile) :=
        congrArg Prod.fst hms
      have hs₁ : s₁ = s := congrArg Prod.snd hms
      refine ⟨?_, ?_, ?_⟩
      · show (phase1 now containingFile (m :: rest) i s).1 = _
        unfold phase1
        simp only [hstep, hrec, ho]
        simp only [List.map_cons, hl]
        rw [ih1, hmaps]
      · show (phase1 now containingFile (m :: rest) i s).2.1 = _
        unfold phase1
        simp only [hstep, hrec, ho]
        simp only [withIdx, List.filter_cons, hl, Option.isNone_none,
          if_true, List.map_cons]
        rw [ih2, hfilter]
      · intro m'
        show lookupValue now containingFile
          ((phase1 now containingFile (m :: rest) i s).2.2) m' = _
        unfold phase1
        simp only [hstep, hrec, ho]
        rw [ih3 m', hinv m']
    · -- hit: the value is assigned in place
      have ho : o = P1.hit v := by rw [hfst, hl]
      refine ⟨?_, ?_, ?_⟩
      · show (phase1 now containingFile (m :: rest) i s).1 = _
        unfold phase1
        simp only [hstep, hrec, ho]
        simp only [List.map_cons, hl]
        rw [ih1, hmaps]
      · show (phase1 now containingFile (m :: rest) i s).2.1 = _
        unfold phase1
        simp only [hstep, hrec, ho]
        simp only [withIdx, List.filter_cons, hl, Option.isNone_some,
          Bool.false_eq_true, if_false]
        rw [ih2, hfilter]
      · intro m'
        show lookupValue now containingFile
          ((phase1 now containingFile (m :: rest) i s).2.2) m' = _
        unfold phase1
        simp only [hstep, hrec, ho]
        rw [ih3 m', hinv m']

/-- Closed form of the phase-2 loop: each work-list entry receives the
fresh resolution of its own specifier (fresh resolution reads no cache
state), and exactly the work-list specifiers are freshly resolved. -/
theorem phase2_spec (env : ResolveEnv) (now : Nat) (containingFile : String)
    (toResolve : List (Nat × String × String)) (s : CacheState) :
    (phase2 env now containingFile toResolve s).1 =
      toResolve.map
        (fun e => (e.1, freshResolve env containingFile e.2.1)) ∧
    (phase2 env now containingFile toResolve s).2.2 =
      toResolve.map (fun e => e.2.1) := by
  induction toResolve generalizing s with
  | nil => exact ⟨rfl, rfl⟩
  | cons entry rest ih =>
    obtain ⟨index, moduleName, cacheKey⟩ := entry
    unfold phase2
    rcases hrm : freshResolve env containingFile moduleName with - | rm
    · rcases hrec : phase2 env now containingFile rest s with ⟨asg, s₂, fresh⟩
      obtain ⟨ihl, ihr⟩ := ih s
      simp only [hrec] at ihl ihr
      simp only [hrm, hrec, List.map_cons]
      exact ⟨by rw [ihl], by rw [ihr]⟩
    · rcases hrec : phase2 env now containingFile rest
          (CM1.cacheResolvedModule cacheKey rm now s) with ⟨asg, s₂, fresh⟩
      obtain ⟨ihl, ihr⟩ := ih (CM1.cacheResolvedModule cacheKey rm now s)
      simp only [hrec] at ihl ihr
      simp only [hrm, hrec, List.map_cons]
      exact ⟨by rw [ihl], by rw [ihr]⟩

theorem applyAssignments_cons (vals : List (Option ResolvedModule))
    (a : Nat × Option ResolvedModule)
    (asg : List (Nat × Option ResolvedModule)) :
    applyAssignments vals (a :: asg) =
      applyAssignments (vals.set a.1 a.2) asg := rfl

theorem applyAssignments_length (vals : List (Option ResolvedModule))
    (asg : List (Nat × Option ResolvedModule)) :
    (applyAssignments vals asg).length = vals.length := by
  induction asg generalizing vals with
  | nil => rfl
  | cons a rest ih =>
    rw [applyAssignments_cons, ih, List.length_set]

theorem applyAssignments_not_mem (vals : List (Option ResolvedModule))
    (asg : List (Nat × Option ResolvedModule)) (j : Nat)
    (h : j ∉ asg.map Prod.fst) :
    (applyAssignments vals asg)[j]? = vals[j]? := by
  induction asg generalizing vals with
  | nil => rfl
  | cons a rest ih =>
    simp only [List.map_cons, List.mem_cons] at h
    push_neg at h
    rw [applyAssignments_cons, ih _ h.2,
      getq_set_ne _ _ _ _ (fun hc => h.1 hc.symm)]

theorem applyAssignments_mem (vals : List (Option ResolvedModule))
    (asg : List (Nat × Option ResolvedModule)) (j : Nat)
    (v : Option ResolvedModule)
    (hnodup : (asg.map Prod.fst).Nodup) (hmem : (j, v) ∈ asg)
    (hj : j < vals.length) :
    (applyAssignments vals asg)[j]? = some v := by
  induction asg generalizing vals with
  | nil => simp at hmem
  | cons a rest ih =>
    obtain ⟨i, w⟩ := a
    simp only [List.map_cons, List.nodup_cons] at hnodup
    rw [applyAssignments_cons]
    rcases List.mem_cons.mp hmem with heq | hmem2
    · cases heq
      show (applyAssignments (vals.set j v) rest)[j]? = some v
      rw [applyAssignments_not_mem (vals.set j v) rest j hnodup.1]
      exact getq_set_self vals j v hj
    · have hij : i ≠ j := fun hc =>
        hnodup.1 (hc ▸ List.mem_map.mpr ⟨(j, v), hmem2, rfl⟩)
      show (applyAssignments (vals.set i w) rest)[j]? = some v
      exact ih (vals.set i w) hnodup.2 hmem2
        (by rw [List.length_set]; exact hj)

/-- C2: for every batch of module specifiers, `resolveModuleNames`
returns exactly one slot per specifier, and slot `i` holds the
resolution of specifier `i` — its cache-lookup value as of the start of
the batch, else its fresh resolution (primary resolver, exception
fallback, filesystem heuristic), else `undefined` — regardless of which
specifiers hit the cache; the resolver is total for every environment,
including one whose primary resolver throws on every call. -/
theorem resolver_order_preserving (env : ResolveEnv) (now : Nat)
    (s : CacheState) (ms : List String) (containingFile : String) :
    ((resolveModuleNames env now s ms containingFile).1).length = ms.length ∧
    (∀ (i : Nat) (hi : i < ms.length),
      ((resolveModuleNames env now s ms containingFile).1)[i]? =
        some (resolveOneSpec env now containingFile s ms[i])) := by
  unfold resolveModuleNames
  rcases hp1 : phase1 now containingFile ms 0 s with ⟨vals, toResolve, s₁⟩
  obtain ⟨h1, h2, h3⟩ := phase1_spec now containingFile ms 0 s
  simp only [hp1] at h1 h2 h3
  rcases hp2 : phase2 env now containingFile toResolve s₁ with ⟨asg, s₂, fresh⟩
  obtain ⟨h4, h5⟩ := phase2_spec env now containingFile toResolve s₁
  simp only [hp2] at h4 h5
  simp only [hp1, hp2]
  have hvlen : vals.length = ms.length := by rw [h1, List.length_map]
  have hidx : asg.map Prod.fst =
      ((withIdx 0 ms).filter
        (fun e => (lookupValue now containingFile s e.2).isNone)).map
        Prod.fst := by
    rw [h4, h2, List.map_map, List.map_map]
    exact List.map_congr_left fun e _ => rfl
  have hnodup : (asg.map Prod.fst).Nodup := by
    rw [hidx]
    have hsub : List.Sublist
        (((withIdx 0 ms).filter
          (fun e => (lookupValue now containingFile s e.2).isNone)).map
          Prod.fst)
        ((withIdx 0 ms).map Prod.fst) :=
      (List.filter_sublist _).map Prod.fst
    rw [withIdx_map_fst] at hsub
    exact List.Nodup.sublist hsub (List.nodup_range' 0 ms.length 1 (by omega))
  constructor
  · rw [applyAssignments_length, hvlen]
  · intro i hi
    rcases hl : lookupValue now containingFile s ms[i] with - | v
    · -- cache miss: slot `i` is filled by phase 2 with the fresh resolution
      have hwmem : ((i, ms[i]) : Nat × String) ∈ withIdx 0 ms := by
        have h := getElem_mem_withIdx 0 ms i hi
        simpa using h
      have hfm : ((i, ms[i]) : Nat × String) ∈ (withIdx 0 ms).filter
          (fun e => (lookupValue now containingFile s e.2).isNone) :=
        List.mem_filter.mpr ⟨hwmem, by simp [hl]⟩
      have htrmem : (i, ms[i], createCacheKey ms[i] containingFile) ∈
          toResolve := by
        rw [h2]
        exact List.mem_map.mpr ⟨(i, ms[i]), hfm, rfl⟩
      have hasgmem : (i, freshResolve env containingFile ms[i]) ∈ asg := by
        rw [h4]
        exact List.mem_map.mpr
          ⟨(i, ms[i], createCacheKey ms[i] containingFile), htrmem, rfl⟩
      rw [applyAssignments_mem vals asg i _ hnodup hasgmem (hvlen ▸ hi)]
      unfold resolveOneSpec
      rw [hl]
    · -- cache hit: slot `i` keeps its phase-1 value
      have hnotmem : i ∉ asg.map Prod.fst := by
        rw [hidx]
        intro hmem
        obtain ⟨e, hef, he1⟩ := List.mem_map.mp hmem
        have hpred := (List.mem_filter.mp hef).2
        obtain ⟨j, hj, hj1, hj2⟩ := mem_withIdx 0 ms e (List.mem_filter.mp hef).1
        have hji : j = i := by omega
        subst hji
        rw [hj2, hl] at hpred
        simp at hpred
      rw [applyAssignments_not_mem vals asg i hnotmem, h1]
      rw [List.getElem?_map, List.getElem?_eq_getElem hi]
      unfold resolveOneSpec
      simp [hl]

/-- Witness for C2 at a concrete batch: second specifier cached via the
legacy cache, first fresh-resolved, third unresolvable, with a throwing
primary resolver on the fourth — four slots, position for position. -/
theorem resolver_order_preserving_witness :
    ((resolveModuleNames
        { primary := fun m _ => if m = "boom" then .throws else
            if m = "fresh" then
              .ok (some { resolvedFileName := "/nm/fresh.d.ts"
                          isExternalLibraryImport := some false })
            else .ok none
          fallback := fun _ => none } 5
        { CacheState.initial with legacy := [("cached#main", "/nm/cached.js")] }
        ["fresh", "cached", "nope", "boom"] "/main.ts").1).length = 4 ∧
    ((resolveModuleNames
        { primary := fun m _ => if m = "boom" then .throws else
            if m = "fresh" then
              .ok (some { resolvedFileName := "/nm/fresh.d.ts"
                          isExternalLibraryImport := some false })
            else .ok none
          fallback := fun _ => none } 5
        { CacheState.initial with legacy := [("cached#main", "/nm/cached.js")] }
        ["fresh", "cached", "nope", "boom"] "/main.ts").1)[1]? =
      some (some { resolvedFileName := "/nm/cached.js"
                   isExternalLibraryImport := some true }) := by
  constructor
  · exact (resolver_order_preserving
      { primary := fun m _ => if m = "boom" then .throws else
          if m = "fresh" then
            .ok (some { resolvedFileName := "/nm/fresh.d.ts"
                        isExternalLibraryImport := some false })
          else .ok none
        fallback := fun _ => none } 5
      { CacheState.initial with legacy := [("cached#main", "/nm/cached.js")] }
      ["fresh", "cached", "nope", "boom"] "/main.ts").1
  · have h := (resolver_order_preserving
      { primary := fun m _ => if m = "boom" then .throws else
          if m = "fresh" then
            .ok (some { resolvedFileName := "/nm/fresh.d.ts"
                        isExternalLibraryImport := some false })
          else .ok none
        fallback := fun _ => none } 5
      { CacheState.initial with legacy := [("cached#main", "/nm/cached.js")] }
      ["fresh", "cached", "nope", "boom"] "/main.ts").2 1 (by decide)
    rw [h]
    decide

/-! ## C9 / C10 — cache write-through, TTL expiry and the legacy path -/

/-- A batch of one specifier whose phase-1 lookup hits: the hit is the
single slot, the state is phase 1's, and nothing is freshly resolved. -/
theorem resolveModuleNames_singleton_hit (env : ResolveEnv) (now : Nat)
    (s : CacheState) (m containingFile : String) (v : ResolvedModule)
    (s' : CacheState)
    (h : lookupStep now containingFile s m = (P1.hit v, s')) :
    resolveModuleNames env now s [m] containingFile = ([some v], s', []) := by
  unfold resolveModuleNames phase1 phase2
  simp only [h]
  rfl

/-- After `cacheResolvedModule`, the enhanced cache holds the written
entry. -/
theorem getEnhanced_after_cacheResolvedModule (cacheKey : String)
    (rm : ResolvedModule) (now : Nat) (s : CacheState) :
    CM1.getEnhancedCachedModule cacheKey
      (CM1.cacheResolvedModule cacheKey rm now s) =
      some { resolvedFileName := rm.resolvedFileName
             isExternalLibraryImport := rm.isExternalLibraryImport.getD true
             timestamp := now } := by
  show AList.get? cacheKey (AList.set cacheKey _ s.enhanced) = _
  exact AList.get?_set_self _ _ _

/-- After `cacheResolvedModule`, the legacy cache holds the resolved
path. -/
theorem getLegacy_after_cacheResolvedModule (cacheKey : String)
    (rm : ResolvedModule) (now : Nat) (s : CacheState) :
    CM1.getLegacyCachedModule cacheKey
      (CM1.cacheResolvedModule cacheKey rm now s) =
      some rm.resolvedFileName := by
  show AList.get? cacheKey (AList.set cacheKey _ s.legacy) = _
  exact AList.get?_set_self _ _ _

/-- Looking a module up while its enhanced entry is still valid serves
the enhanced entry without touching the state. -/
theorem lookupStep_after_cache_valid (containingFile m : String)
    (rm : ResolvedModule) (now₀ now₁ : Nat) (s : CacheState)
    (hv : CM1.isCacheValid now₁
      { resolvedFileName := rm.resolvedFileName
        isExternalLibraryImport := rm.isExternalLibraryImport.getD true
        timestamp := now₀ } = true) :
    lookupStep now₁ containingFile
      (CM1.cacheResolvedModule (createCacheKey m containingFile) rm now₀ s) m =
      (P1.hit { resolvedFileName := rm.resolvedFileName
                isExternalLibraryImport := some (rm.isExternalLibraryImport.getD true) },
       CM1.cacheResolvedModule (createCacheKey m containingFile) rm now₀ s) := by
  unfold lookupStep
  rw [getEnhanced_after_cacheResolvedModule]
  simp [hv]

/-- Looking a module up after its enhanced entry expired falls through
to the legacy path cache, returns the previously resolved path with
`isExternalLibraryImport: true`, and migrates it back into the enhanced
cache with a fresh timestamp. -/
theorem lookupStep_after_cache_expired (containingFile m : String)
    (rm : ResolvedModule) (now₀ now₁ : Nat) (s : CacheState)
    (hv : ¬ CM1.isCacheValid now₁
      { resolvedFileName := rm.resolvedFileName
        isExternalLibraryImport := rm.isExternalLibraryImport.getD true
        timestamp := now₀ } = true) :
    lookupStep now₁ containingFile
      (CM1.cacheResolvedModule (createCacheKey m containingFile) rm now₀ s) m =
      (P1.hit { resolvedFileName := rm.resolvedFileName
                isExternalLibraryImport := some true },
       CM1.migrateLegacyToEnhanced (createCacheKey m containingFile)
         rm.resolvedFileName now₁
         (CM1.cacheResolvedModule (createCacheKey m containingFile) rm now₀ s)) := by
  unfold lookupStep
  rw [getEnhanced_after_cacheResolvedModule]
  simp only [hv, Bool.false_eq_true, if_false]
  unfold lookupLegacyStep
  rw [getLegacy_after_cacheResolvedModule]

/-- C9: once `cacheResolvedModule` has recorded a resolution, a later
batch lookup of the same specifier — at ANY later time — returns the
recorded path without any fresh resolution: a still-valid enhanced entry
serves directly, and an expired one falls through to the legacy path
cache (which has no timestamp), whose hit is returned and migrated back
into the enhanced cache with a fresh timestamp.  TTL expiry never causes
re-resolution. -/
theorem ttl_expiry_never_reresolves (env : ResolveEnv) (s : CacheState)
    (containingFile m : String) (rm : ResolvedModule) (now₀ now₁ : Nat) :
    (∃ ext, (resolveModuleNames env now₁
        (CM1.cacheResolvedModule (createCacheKey m containingFile) rm now₀ s)
        [m] containingFile).1 =
      [some { resolvedFileName := rm.resolvedFileName
              isExternalLibraryImport := ext }]) ∧
    (resolveModuleNames env now₁
        (CM1.cacheResolvedModule (createCacheKey m containingFile) rm now₀ s)
        [m] containingFile).2.2 = [] ∧
    (¬ CM1.isCacheValid now₁
        { resolvedFileName := rm.resolvedFileName
          isExternalLibraryImport := rm.isExternalLibraryImport.getD true
          timestamp := now₀ } = true →
      CM1.getEnhancedCachedModule (createCacheKey m containingFile)
        (resolveModuleNames env now₁
          (CM1.cacheResolvedModule (createCacheKey m containingFile) rm now₀ s)
          [m] containingFile).2.1 =
        some { resolvedFileName := rm.resolvedFileName
               isExternalLibraryImport := true
               timestamp := now₁ }) := by
  by_cases hv : CM1.isCacheValid now₁
      { resolvedFileName := rm.resolvedFileName
        isExternalLibraryImport := rm.isExternalLibraryImport.getD true
        timestamp := now₀ } = true
  · rw [resolveModuleNames_singleton_hit env now₁ _ m containingFile _ _
      (lookupStep_after_cache_valid containingFile m rm now₀ now₁ s hv)]
    exact ⟨⟨some (rm.isExternalLibraryImport.getD true), rfl⟩, rfl,
      fun hexp => absurd hv hexp⟩
  · rw [resolveModuleNames_singleton_hit env now₁ _ m containingFile _ _
      (lookupStep_after_cache_expired containingFile m rm now₀ now₁ s hv)]
    refine ⟨⟨some true, rfl⟩, rfl, fun _ => ?_⟩
    show AList.get? (createCacheKey m containingFile)
      (AList.set (createCacheKey m containingFile) _ _) = _
    exact AList.get?_set_self _ _ _

/-- Witness for C9: a concrete module cached at time 0 and looked up one
full TTL later (expired) is still served from the cache, with no fresh
resolution and a migrated entry timestamped at the lookup time. -/
theorem ttl_expiry_never_reresolves_witness :
    (∃ ext, (resolveModuleNames
        { primary := fun _ _ => .ok none, fallback := fun _ => none }
        MODULE_RESOLUTION_TTL
        (CM1.cacheResolvedModule (createCacheKey "m" "/main.ts")
          { resolvedFileName := "/nm/m.d.ts", isExternalLibraryImport := some false }
          0 CacheState.initial)
        ["m"] "/main.ts").1 =
      [some { resolvedFileName := "/nm/m.d.ts", isExternalLibraryImport := ext }]) ∧
    (resolveModuleNames
        { primary := fun _ _ => .ok none, fallback := fun _ => none }
        MODULE_RESOLUTION_TTL
        (CM1.cacheResolvedModule (createCacheKey "m" "/main.ts")
          { resolvedFileName := "/nm/m.d.ts", isExternalLibraryImport := some false }
          0 CacheState.initial)
        ["m"] "/main.ts").2.2 = [] ∧
    CM1.getEnhancedCachedModule (createCacheKey "m" "/main.ts")
      (resolveModuleNames
        { primary := fun _ _ => .ok none, fallback := fun _ => none }
        MODULE_RESOLUTION_TTL
        (CM1.cacheResolvedModule (createCacheKey "m" "/main.ts")
          { resolvedFileName := "/nm/m.d.ts", isExternalLibraryImport := some false }
          0 CacheState.initial)
        ["m"] "/main.ts").2.1 =
      some { resolvedFileName := "/nm/m.d.ts", isExternalLibraryImport := true
             timestamp := MODULE_RESOLUTION_TTL } := by
  have h := ttl_expiry_never_reresolves
    { primary := fun _ _ => .ok none, fallback := fun _ => none }
    CacheState.initial "/main.ts" "m"
    { resolvedFileName := "/nm/m.d.ts", isExternalLibraryImport := some false }
    0 MODULE_RESOLUTION_TTL
  exact ⟨h.1, h.2.1, h.2.2 (by decide)⟩

/-- C10: (1) `cacheResolvedModule` records `isExternalLibraryImport` as
`true` whenever the underlying resolution left the field undefined
(`?? true`); (2) a resolution served via the legacy path cache — here,
after the enhanced entry expired — returns `isExternalLibraryImport:
true` regardless of the value observed at the original resolution, and
the migrated enhanced entry also records `true`. -/
theorem legacy_path_isExternal_true :
    (∀ (cacheKey : String) (rm : ResolvedModule) (now : Nat) (s : CacheState),
      rm.isExternalLibraryImport = none →
      CM1.getEnhancedCachedModule cacheKey
        (CM1.cacheResolvedModule cacheKey rm now s) =
        some { resolvedFileName := rm.resolvedFileName
               isExternalLibraryImport := true
               timestamp := now }) ∧
    (∀ (env : ResolveEnv) (s : CacheState) (containingFile m : String)
       (rm : ResolvedModule) (now₀ now₁ : Nat),
      ¬ CM1.isCacheValid now₁
        { resolvedFileName := rm.resolvedFileName
          isExternalLibraryImport := rm.isExternalLibraryImport.getD true
          timestamp := now₀ } = true →
      (resolveModuleNames env now₁
          (CM1.cacheResolvedModule (createCacheKey m containingFile) rm now₀ s)
          [m] containingFile).1 =
        [some { resolvedFileName := rm.resolvedFileName
                isExternalLibraryImport := some true }] ∧
      CM1.getEnhancedCachedModule (createCacheKey m containingFile)
        (resolveModuleNames env now₁
          (CM1.cacheResolvedModule (createCacheKey m containingFile) rm now₀ s)
          [m] containingFile).2.1 =
        some { resolvedFileName := rm.resolvedFileName
               isExternalLibraryImport := true
               timestamp := now₁ }) := by
  constructor
  · intro cacheKey rm now s hnone
    rw [getEnhanced_after_cacheResolvedModule, hnone]
    rfl
  · intro env s containingFile m rm now₀ now₁ hv
    rw [resolveModuleNames_singleton_hit env now₁ _ m containingFile _ _
      (lookupStep_after_cache_expired containingFile m rm now₀ now₁ s hv)]
    refine ⟨rfl, ?_⟩
    show AList.get? (createCacheKey m containingFile)
      (AList.set (createCacheKey m containingFile) _ _) = _
    exact AList.get?_set_self _ _ _

/-- Witness for C10: a module originally resolved with
`isExternalLibraryImport: false`, served via the legacy path after
expiry, comes back as `true`; and an undefined flag is recorded as
`true`. -/
theorem legacy_path_isExternal_true_witness :
    CM1.getEnhancedCachedModule "k"
      (CM1.cacheResolvedModule "k"
        { resolvedFileName := "/nm/a.js", isExternalLibraryImport := none } 3
        CacheState.initial) =
      some { resolvedFileName := "/nm/a.js", isExternalLibraryImport := true
             timestamp := 3 } ∧
    (resolveModuleNames
        { primary := fun _ _ => .ok none, fallback := fun _ => none }
        MODULE_RESOLUTION_TTL
        (CM1.cacheResolvedModule (createCacheKey "m" "/main.ts")
          { resolvedFileName := "/nm/m.d.ts", isExternalLibraryImport := some false }
          0 CacheState.initial)
        ["m"] "/main.ts").1 =
      [some { resolvedFileName := "/nm/m.d.ts"
              isExternalLibraryImport := some true }] := by
  constructor
  · exact legacy_path_isExternal_true.1 "k"
      { resolvedFileName := "/nm/a.js", isExternalLibraryImport := none } 3
      CacheState.initial rfl
  · exact (legacy_path_isExternal_true.2
      { primary := fun _ _ => .ok none, fallback := fun _ => none }
      CacheState.initial "/main.ts" "m"
      { resolvedFileName := "/nm/m.d.ts", isExternalLibraryImport := some false }
      0 MODULE_RESOLUTION_TTL (by decide)).1

end IvyCompiler
